import Mathlib

/-!
Verification of `src/utils/text-tools.ts` (footnote reconciliation and
fragment merging).

Strings are embedded as `List Char` (JavaScript strings, viewed as sequences
of code points; none of the properties below depend on surrogate pairs).
Fallible code (the `URL` constructor throwing on a malformed URL) is embedded
in `Option`, with `none` standing for a thrown error.

The JavaScript regex scans (`String.prototype.replace` with a global regex,
and the `exec` loop) are embedded as explicit left-to-right scanners that, at
each position, either match the pattern (consuming the whole match) or move
one character forward.  The scanners are written with an explicit fuel
argument (the length of the remaining input always fits in the fuel) so that
every definition is structurally recursive and computable by `decide`/`rfl`.
-/

namespace TextTools

/-! ### The fragment merger `smartMergeStrings` -/

/-- `needle.isSubstringOf hay` decides JavaScript `hay.includes(needle)`. -/
def isSubstringOf (needle hay : List Char) : Bool :=
  if needle.isPrefixOf hay then true
  else
    match hay with
    | [] => false
    | _ :: t => isSubstringOf needle t

/-- The source's overlap search loop: the largest `L` with
`1 ≤ L ≤ k` such that the last `L` characters of `str1` equal the first `L`
characters of `str2`, searched from `k` downward; `0` if none matches. -/
def overlapLoop (str1 str2 : List Char) : Nat → Nat
  | 0 => 0
  | k + 1 =>
    if str1.drop (str1.length - (k + 1)) = str2.take (k + 1) then k + 1
    else overlapLoop str1 str2 k

/-- `smartMergeStrings` from `text-tools.ts`, over `List Char`. -/
def smartMergeStrings (str1 str2 : List Char) : List Char :=
  if str1.isEmpty then str2
  else if str2.isEmpty then str1
  else if isSubstringOf str2 str1 then str1
  else if isSubstringOf str1 str2 then str2
  else
    let bestOverlapLength := overlapLoop str1 str2 (min str1.length str2.length)
    if 0 < bestOverlapLength then
      str1.take (str1.length - bestOverlapLength) ++ str2
    else
      str1 ++ str2

/-- The overlap predicate of the source loop: the last `L` characters of
`str1` coincide with the first `L` characters of `str2`. -/
def OverlapAt (str1 str2 : List Char) (L : Nat) : Prop :=
  str1.drop (str1.length - L) = str2.take L

instance (str1 str2 : List Char) (L : Nat) : Decidable (OverlapAt str1 str2 L) := by
  unfold OverlapAt; infer_instance

lemma isPrefixOf_iff_isPre {l1 l2 : List Char} :
    l1.isPrefixOf l2 = true ↔ l1 <+: l2 := List.isPrefixOf_iff_prefix

lemma isSubstringOf_iff (needle hay : List Char) :
    isSubstringOf needle hay = true ↔ needle <:+: hay := by
  induction hay with
  | nil =>
    unfold isSubstringOf
    by_cases hp : needle.isPrefixOf ([] : List Char) = true
    · rw [if_pos hp]
      have hn : needle = [] := List.prefix_nil.mp (isPrefixOf_iff_isPre.mp hp)
      simp [hn]
    · rw [if_neg hp]
      show (false = true) ↔ needle <:+: []
      constructor
      · intro h; exact absurd h (by decide)
      · intro h
        have hn : needle = [] := List.eq_nil_of_infix_nil h
        exact absurd (by simp [hn, isPrefixOf_iff_isPre] : needle.isPrefixOf [] = true) hp
  | cons a t ih =>
    unfold isSubstringOf
    by_cases hp : needle.isPrefixOf (a :: t) = true
    · rw [if_pos hp]
      simp only [true_iff]
      exact (isPrefixOf_iff_isPre.mp hp).isInfix
    · rw [if_neg hp]
      rw [ih]
      constructor
      · intro h; exact h.trans (List.infix_cons List.infix_rfl)
      · intro h
        rcases h with ⟨pre, suf, habc⟩
        cases pre with
        | nil =>
          exact absurd (isPrefixOf_iff_isPre.mpr ⟨suf, by simpa using habc⟩) hp
        | cons b pre' =>
          exact ⟨pre', suf, by simpa using congrArg List.tail habc⟩

lemma overlapLoop_le (str1 str2 : List Char) (k : Nat) :
    overlapLoop str1 str2 k ≤ k := by
  induction k with
  | zero => simp [overlapLoop]
  | succ k ih =>
    unfold overlapLoop
    split
    · exact Nat.le_refl _
    · exact Nat.le_succ_of_le ih

lemma overlapLoop_pos_overlap (str1 str2 : List Char) (k : Nat)
    (h : 0 < overlapLoop str1 str2 k) :
    OverlapAt str1 str2 (overlapLoop str1 str2 k) := by
  induction k with
  | zero => simp [overlapLoop] at h
  | succ k ih =>
    unfold overlapLoop at h ⊢
    split at h
    · next heq => simp only [if_pos heq]; exact heq
    · next heq => simp only [if_neg heq]; exact ih h

lemma le_overlapLoop (str1 str2 : List Char) (k L : Nat)
    (hL : 0 < L) (hLk : L ≤ k) (hov : OverlapAt str1 str2 L) :
    L ≤ overlapLoop str1 str2 k := by
  induction k with
  | zero => omega
  | succ k ih =>
    unfold overlapLoop
    split
    · exact hLk
    · next hne =>
      apply ih
      by_cases hEq : L = k + 1
      · subst hEq; exact absurd hov hne
      · omega

lemma overlapLoop_eq_zero_of_no_overlap (str1 str2 : List Char) (k : Nat)
    (h : ∀ L, 1 ≤ L → L ≤ k → ¬ OverlapAt str1 str2 L) :
    overlapLoop str1 str2 k = 0 := by
  by_contra hne
  have hpos : 0 < overlapLoop str1 str2 k := Nat.pos_of_ne_zero hne
  exact h _ hpos (overlapLoop_le str1 str2 k) (overlapLoop_pos_overlap str1 str2 k hpos)

lemma isEmpty_eq_true_ne {α : Type} (l : List α) (h : l ≠ []) : ¬ (l.isEmpty = true) := by
  intro hh; exact h (List.isEmpty_iff.mp hh)

end TextTools

namespace TextTools

/-! ### The footnote reconciler `buildMdFromAnswer`

JavaScript regex character classes used by the source:
`\d` is ASCII `0`-`9` (`Char.isDigit`); `\s` is the fixed set of JavaScript
whitespace code points (`jsWhitespace` below, also the set trimmed by
`String.prototype.trim`); `\p{L}\p{N}` (Unicode letters and numbers) is a
large environment-provided character table, so it is kept as an explicit
parameter `isLN : Char → Bool` of the definitions that use it — every theorem
below holds for an arbitrary table, and concrete evaluations instantiate it
with `asciiLN`, which agrees with the Unicode classes on the ASCII inputs
used. -/

/-- The JavaScript `\s` class (also the set trimmed by `trim()`): TAB, LF,
VT, FF, CR, SP, NBSP, the Unicode `Zs` code points, LS, PS and ZWNBSP. -/
def jsWhitespace (c : Char) : Bool :=
  let n := c.toNat
  n == 0x20 || (decide (0x9 ≤ n) && decide (n ≤ 0xD)) || n == 0xA0 || n == 0x1680 ||
    (decide (0x2000 ≤ n) && decide (n ≤ 0x200A)) || n == 0x2028 || n == 0x2029 ||
    n == 0x202F || n == 0x205F || n == 0x3000 || n == 0xFEFF

/-- ASCII letters and digits: the instantiation of the `\p{L}\p{N}` oracle
used for concrete test inputs (it agrees with the Unicode classes on ASCII). -/
def asciiLN (c : Char) : Bool := c.isAlpha || c.isDigit

/-- `String.prototype.trim`, left part: drop leading JavaScript whitespace. -/
def jsLtrim (l : List Char) : List Char := l.dropWhile jsWhitespace

/-- `String.prototype.trim`, right part: drop trailing JavaScript whitespace. -/
def jsRtrim (l : List Char) : List Char := (l.reverse.dropWhile jsWhitespace).reverse

/-- `String.prototype.trim`. -/
def jsTrim (l : List Char) : List Char := jsRtrim (jsLtrim l)

/-- The decimal digit character of `d` (for `d ≤ 9`; larger arguments do not
occur: the function is only applied to `n % 10` and to `n < 10`). -/
def digitChar : Nat → Char
  | 0 => '0' | 1 => '1' | 2 => '2' | 3 => '3' | 4 => '4'
  | 5 => '5' | 6 => '6' | 7 => '7' | 8 => '8' | _ => '9'

/-- Fuelled decimal rendering of a natural number (fuel `n + 1` suffices). -/
def natDigitsF : Nat → Nat → List Char
  | 0, _ => []
  | fuel + 1, n =>
    if n < 10 then [digitChar n]
    else natDigitsF fuel (n / 10) ++ [digitChar (n % 10)]

/-- The decimal rendering of a natural number, as produced by a JavaScript
template literal `${n}`. -/
def natDigits (n : Nat) : List Char := natDigitsF (n + 1) n

/-- JavaScript `parseInt` restricted to the non-empty all-digit strings that
the footnote scanner produces. -/
def parseIntDigits (ds : List Char) : Nat :=
  ds.foldl (fun a c => a * 10 + (c.toNat - 48)) 0

/-- Matching the single-footnote regex `\[\^(\d+)]` at the head of the input:
on success returns the captured digits and the input after the match. -/
def matchSingleFootnote : List Char → Option (List Char × List Char)
  | c1 :: c2 :: rest =>
    if c1 = '[' ∧ c2 = '^' ∧ rest.takeWhile Char.isDigit ≠ [] ∧
        (rest.dropWhile Char.isDigit).head? = some ']' then
      some (rest.takeWhile Char.isDigit, (rest.dropWhile Char.isDigit).tail)
    else none
  | _ => none

/-- The `exec` loop over `footnoteRegex`: collect the captured digit groups
of all matches, scanning left to right (fuelled; fuel = input length). -/
def extractFootnotesF : Nat → List Char → List (List Char)
  | 0, _ => []
  | _ + 1, [] => []
  | fuel + 1, c :: rest =>
    match matchSingleFootnote (c :: rest) with
    | some (ds, rest2) => ds :: extractFootnotesF fuel rest2
    | none => extractFootnotesF fuel rest

/-- All single-footnote captures of the text, in order of appearance. -/
def extractFootnotes (l : List Char) : List (List Char) :=
  extractFootnotesF l.length l

/-- `text.replace(footnoteRegex, '')`: a single left-to-right pass removing
every match (fuelled; fuel = input length). -/
def stripFootnotesF : Nat → List Char → List Char
  | 0, l => l
  | _ + 1, [] => []
  | fuel + 1, c :: rest =>
    match matchSingleFootnote (c :: rest) with
    | some (_, rest2) => stripFootnotesF fuel rest2
    | none => c :: stripFootnotesF fuel rest

/-- `text.replace(footnoteRegex, '')`. -/
def stripFootnotes (l : List Char) : List Char := stripFootnotesF l.length l

/-- The marker text `[^ds]`. -/
def singleMarker (ds : List Char) : List Char := '[' :: '^' :: (ds ++ [']'])

/-- `text.replace(footnoteRegex, () => `[^${++currentIndex}]`)`: replace the
`k`-th match (0-based `k` continuing from the first argument) with the
sequential marker `[^k+1]` (fuelled; fuel = input length). -/
def renumberFootnotesF : Nat → Nat → List Char → List Char
  | 0, _, l => l
  | _ + 1, _, [] => []
  | fuel + 1, k, c :: rest =>
    match matchSingleFootnote (c :: rest) with
    | some (_, rest2) => singleMarker (natDigits (k + 1)) ++ renumberFootnotesF fuel (k + 1) rest2
    | none => c :: renumberFootnotesF fuel k rest

/-- The correction rewrite: every single-footnote match replaced by freshly
sequential markers starting at `[^k+1]`. -/
def renumberFootnotes (k : Nat) (l : List Char) : List Char :=
  renumberFootnotesF l.length k l

/-- `Array.prototype.join(sep)`. -/
def joinSep (sep : List Char) : List (List Char) → List Char
  | [] => []
  | [l] => l
  | l :: ls => l ++ sep ++ joinSep sep ls

/-- The tail of the grouped-footnote regex `(?:,\s*\^(\d+))+]` after the first
number: parse zero or more `,\s*\^\d+` groups followed by `]`, returning the
captured digit groups and the rest of the input.  The pattern is
deterministic, so no backtracking arises (a group starts with `,` and the
terminator is `]`). -/
def matchGroupsF : Nat → List Char → Option (List (List Char) × List Char)
  | _, [] => none
  | 0, c :: rest => if c = ']' then some ([], rest) else none
  | fuel + 1, c :: rest =>
    if c = ']' then some ([], rest)
    else if c = ',' ∧ (rest.dropWhile jsWhitespace).head? = some '^' ∧
        (rest.dropWhile jsWhitespace).tail.takeWhile Char.isDigit ≠ [] then
      match matchGroupsF fuel
          ((rest.dropWhile jsWhitespace).tail.dropWhile Char.isDigit) with
      | some (dss, rest3) =>
        some ((rest.dropWhile jsWhitespace).tail.takeWhile Char.isDigit :: dss, rest3)
      | none => none
    else none

/-- Matching the grouped-footnote regex `\[\^(\d+)(?:,\s*\^(\d+))+]` at the
head of the input: at least two comma-separated numbers inside one bracket. -/
def matchGrouped : List Char → Option (List (List Char) × List Char)
  | c1 :: c2 :: rest =>
    if c1 = '[' ∧ c2 = '^' ∧ rest.takeWhile Char.isDigit ≠ [] then
      match matchGroupsF rest.length (rest.dropWhile Char.isDigit) with
      | some (dss, rest2) =>
        if dss = [] then none
        else some (rest.takeWhile Char.isDigit :: dss, rest2)
      | none => none
    else none
  | _ => none

/-- The replacement of a grouped footnote: all its numbers as single markers,
joined by `", "` (`match.match(/\d+/g)` recovers exactly the digit groups). -/
def groupedReplacement (dss : List (List Char)) : List Char :=
  joinSep (", ".data) (dss.map singleMarker)

/-- `text.replace(groupedFootnoteRegex, ...)`: a single left-to-right pass
replacing every grouped footnote (fuelled; fuel = input length). -/
def fixGroupedF : Nat → List Char → List Char
  | 0, l => l
  | _ + 1, [] => []
  | fuel + 1, c :: rest =>
    match matchGrouped (c :: rest) with
    | some (dss, rest2) => groupedReplacement dss ++ fixGroupedF fuel rest2
    | none => c :: fixGroupedF fuel rest

/-- The grouped-footnote normalization pass. -/
def fixGrouped (l : List Char) : List Char := fixGroupedF l.length l

/-- `.replace(/\s+/g, ' ')`: collapse every maximal run of JavaScript
whitespace to a single space.  The Boolean state records whether the previous
character was whitespace (inside a run). -/
def collapseWsGo : Bool → List Char → List Char
  | _, [] => []
  | prevWs, c :: rest =>
    if jsWhitespace c then
      (if prevWs then [] else [' ']) ++ collapseWsGo true rest
    else c :: collapseWsGo false rest

/-- `.replace(/\s+/g, ' ')`. -/
def collapseWs (l : List Char) : List Char := collapseWsGo false l

/-- The quote cleaning of `formatReferences`: every character that is not a
letter, number (per the `isLN` oracle) or whitespace becomes a space, then
whitespace runs are collapsed. -/
def cleanQuote (isLN : Char → Bool) (q : List Char) : List Char :=
  collapseWs (q.map (fun c => if isLN c || jsWhitespace c then c else ' '))

/-- Modelled from the spec: the reference record shape consumed by the
reconciler (`{ exactQuote: string, url?: string }`); the `AnswerAction` type
lives in `src/types.ts`, which is not part of the sources, so the record is
taken from the spec's data model. -/
structure Reference where
  exactQuote : List Char
  url : Option (List Char)
  deriving DecidableEq

/-- Modelled from the spec: the answer record `{ answer, references }`
consumed by the reconciler (also from the missing `src/types.ts`). -/
structure AnswerAction where
  answer : List Char
  references : List Reference
  deriving DecidableEq

/-- `str.startsWith(pre)`. -/
def listStartsWith (l pre : List Char) : Bool := pre.isPrefixOf l

/-- Remove the first occurrence of `pat` (JavaScript
`String.prototype.replace` with a string pattern), replacing it by `rep`. -/
def replaceFirst : List Char → List Char → List Char → List Char
  | [], _, _ => []
  | c :: rest, pat, rep =>
    if pat.isPrefixOf (c :: rest) then rep ++ (c :: rest).drop pat.length
    else c :: replaceFirst rest pat rep

/-- Modelled from the spec: the host environment `URL` constructor, used only
for hostname extraction (`new URL(url).hostname`); it fails (throws) on a
string that is not a parseable absolute URL.  The model accepts `http://` and
`https://` URLs with a non-empty host delimited by `/ ? # :` — the forms the
reconciler feeds it — and treats everything else as unparseable. -/
def parseURLHostname (url : List Char) : Option (List Char) :=
  if listStartsWith url ("http://".data) then
    let host := (url.drop 7).takeWhile (fun c => !(c == '/' || c == '?' || c == '#' || c == ':'))
    if host.isEmpty then none else some host
  else if listStartsWith url ("https://".data) then
    let host := (url.drop 8).takeWhile (fun c => !(c == '/' || c == '?' || c == '#' || c == ':'))
    if host.isEmpty then none else some host
  else none

/-- One line of the reference block: `[^i+1]: cleanedQuote`, plus
` [hostname](url)` when the reference has an `http`-prefixed URL; `none`
models the `URL` constructor throwing. -/
def formatReference (isLN : Char → Bool) (i : Nat) (ref : Reference) : Option (List Char) :=
  let citation := "[^".data ++ natDigits (i + 1) ++ "]: ".data ++ cleanQuote isLN ref.exactQuote
  match ref.url with
  | none => some citation
  | some url =>
    if listStartsWith url ("http".data) then
      match parseURLHostname url with
      | none => none
      | some hostname =>
        some (citation ++ " [".data ++ replaceFirst hostname ("www.".data) [] ++
          "](".data ++ url ++ ")".data)
    else some citation

/-- `refs.map((ref, i) => ...)` of the source's `formatReferences`: the list
of citation lines, `none` if any line throws. -/
def formatReferencesAux (isLN : Char → Bool) : Nat → List Reference → Option (List (List Char))
  | _, [] => some []
  | i, ref :: refs =>
    match formatReference isLN i ref, formatReferencesAux isLN (i + 1) refs with
    | some line, some lines => some (line :: lines)
    | _, _ => none

/-- The source's `formatReferences`: the citation lines joined by blank
lines. -/
def formatReferences (isLN : Char → Bool) (refs : List Reference) : Option (List Char) :=
  (formatReferencesAux isLN 0 refs).map (fun lines => joinSep ("\n\n".data) lines)

/-- The `needsCorrection` predicate of the source (footnotes are compared as
strings for sameness and via `parseInt` for the range checks).  On the empty
list — unreachable at the call site — `every` is vacuously true and
`parseInt(undefined)` is `NaN`, whose comparisons are false, which the first
arm reflects. -/
def needsCorrection (footnotes : List (List Char)) (nrefs : Nat) : Bool :=
  match footnotes with
  | [] => decide (0 = nrefs)
  | f :: rest =>
    let allSame := (f :: rest).all (fun n => decide (n = f))
    (decide ((f :: rest).length = nrefs) && allSame) ||
      (allSame && decide (nrefs < parseIntDigits f)) ||
      (f :: rest).all (fun n => decide (nrefs < parseIntDigits n))

/-- The synthetic citation line of the no-markers case: one marker per
reference index, concatenated with no separator. -/
def allRefMarkers (n : Nat) : List Char :=
  ((List.range n).map (fun i => singleMarker (natDigits (i + 1)))).flatten

/-- The markers of the references not cited in the text (the
more-references-than-footnotes case). -/
def unusedRefMarkers (footnotes : List (List Char)) (n : Nat) : List Char :=
  ((List.range n).map (fun i =>
    if (i + 1) ∈ footnotes.map parseIntDigits then [] else singleMarker (natDigits (i + 1)))).flatten

/-- `buildMdFromAnswer` from `text-tools.ts`.  The `Option` result models the
uncaught exception of the `URL` constructor (`none` = the call throws). -/
def buildMdFromAnswer (isLN : Char → Bool) (answer : AnswerAction) : Option (List Char) :=
  if answer.references.isEmpty then
    some (stripFootnotes (fixGrouped answer.answer))
  else
    let processedAnswer := fixGrouped answer.answer
    let footnotes := extractFootnotes processedAnswer
    if footnotes.isEmpty then
      (formatReferences isLN answer.references).map (fun references =>
        jsTrim ("\n".data ++ processedAnswer ++ "\n\n⁜".data ++
          allRefMarkers answer.references.length ++ "\n\n".data ++ references ++ "\n".data))
    else
      let nc := needsCorrection footnotes answer.references.length
      if footnotes.length < answer.references.length && !nc then
        (formatReferences isLN answer.references).map (fun references =>
          jsTrim ("\n".data ++ processedAnswer ++ " \n\n⁜".data ++
            unusedRefMarkers footnotes answer.references.length ++ "\n\n".data ++
            references ++ "\n".data))
      else if !nc then
        (formatReferences isLN answer.references).map (fun references =>
          jsTrim ("\n".data ++ processedAnswer ++ "\n\n".data ++ references ++ "\n".data))
      else
        (formatReferences isLN answer.references).map (fun references =>
          jsTrim ("\n".data ++ renumberFootnotes 0 processedAnswer ++ "\n\n".data ++
            references ++ "\n".data))

/-! ### Basic facts about the single-footnote matcher and the scanners -/

lemma head?_eq_some_cons {l : List Char} {a : Char} (h : l.head? = some a) :
    l = a :: l.tail := by
  cases l with
  | nil => simp at h
  | cons b t => simp at h; simp [h]

lemma matchSingleFootnote_cons2 (c1 c2 : Char) (r : List Char) :
    matchSingleFootnote (c1 :: c2 :: r) =
      if c1 = '[' ∧ c2 = '^' ∧ r.takeWhile Char.isDigit ≠ [] ∧
          (r.dropWhile Char.isDigit).head? = some ']' then
        some (r.takeWhile Char.isDigit, (r.dropWhile Char.isDigit).tail)
      else none := rfl

lemma matchSingleFootnote_some_shape {l ds rest : List Char}
    (h : matchSingleFootnote l = some (ds, rest)) :
    ds ≠ [] ∧ ds.all Char.isDigit = true ∧ l = '[' :: '^' :: (ds ++ ']' :: rest) := by
  cases l with
  | nil => simp [matchSingleFootnote] at h
  | cons c1 l1 =>
    cases l1 with
    | nil => simp [matchSingleFootnote] at h
    | cons c2 r =>
      rw [matchSingleFootnote_cons2] at h
      by_cases hc : c1 = '[' ∧ c2 = '^' ∧ r.takeWhile Char.isDigit ≠ [] ∧
          (r.dropWhile Char.isDigit).head? = some ']'
      · rw [if_pos hc] at h
        obtain ⟨hc1, hc2, hne, hhead⟩ := hc
        subst hc1; subst hc2
        obtain ⟨hds, hrest⟩ := Prod.mk.injEq .. ▸ (Option.some.injEq .. ▸ h)
        refine ⟨by rw [← hds]; exact hne, ?_, ?_⟩
        · rw [← hds, List.all_eq_true]
          intro a ha
          exact List.mem_takeWhile_imp ha
        · rw [← hds, ← hrest]
          have hdrop : r.dropWhile Char.isDigit =
              ']' :: (r.dropWhile Char.isDigit).tail := head?_eq_some_cons hhead
          have hsplit := List.takeWhile_append_dropWhile Char.isDigit r
          rw [hdrop] at hsplit
          rw [hsplit]
      · rw [if_neg hc] at h
        exact absurd h (by simp)

lemma matchSingleFootnote_mk (ds rest : List Char) (h1 : ds ≠ [])
    (h2 : ds.all Char.isDigit = true) :
    matchSingleFootnote ('[' :: '^' :: (ds ++ ']' :: rest)) = some (ds, rest) := by
  have hall : ∀ a ∈ ds, Char.isDigit a = true := List.all_eq_true.mp h2
  have htake : (ds ++ ']' :: rest).takeWhile Char.isDigit = ds := by
    rw [List.takeWhile_append_of_pos hall]
    simp [List.takeWhile_cons]
  have hdrop : (ds ++ ']' :: rest).dropWhile Char.isDigit = ']' :: rest := by
    rw [List.dropWhile_append_of_pos hall]
    simp [List.dropWhile_cons]
  rw [matchSingleFootnote_cons2]
  rw [if_pos ⟨rfl, rfl, by rw [htake]; exact h1, by rw [hdrop]; rfl⟩]
  rw [htake, hdrop]
  rfl

lemma matchSingleFootnote_some_length {l ds rest : List Char}
    (h : matchSingleFootnote l = some (ds, rest)) :
    rest.length < l.length := by
  obtain ⟨_, _, h3⟩ := matchSingleFootnote_some_shape h
  subst h3
  simp
  omega

lemma matchSingleFootnote_head {l ds rest : List Char}
    (h : matchSingleFootnote l = some (ds, rest)) : l.head? = some '[' := by
  obtain ⟨_, _, h3⟩ := matchSingleFootnote_some_shape h
  subst h3; rfl

lemma length_dropWhile_le (p : Char → Bool) (l : List Char) :
    (l.dropWhile p).length ≤ l.length :=
  (List.dropWhile_suffix p).length_le

lemma matchGroupsF_zero_cons (c : Char) (r : List Char) :
    matchGroupsF 0 (c :: r) = if c = ']' then some ([], r) else none := rfl

lemma matchGroupsF_succ_cons (fuel : Nat) (c : Char) (r : List Char) :
    matchGroupsF (fuel + 1) (c :: r) =
      if c = ']' then some ([], r)
      else if c = ',' ∧ (r.dropWhile jsWhitespace).head? = some '^' ∧
          (r.dropWhile jsWhitespace).tail.takeWhile Char.isDigit ≠ [] then
        match matchGroupsF fuel
            ((r.dropWhile jsWhitespace).tail.dropWhile Char.isDigit) with
        | some (dss, rest3) =>
          some ((r.dropWhile jsWhitespace).tail.takeWhile Char.isDigit :: dss, rest3)
        | none => none
      else none := rfl

lemma matchGroupsF_some_len :
    ∀ fuel (l : List Char) dss (rest : List Char),
      matchGroupsF fuel l = some (dss, rest) → rest.length < l.length := by
  intro fuel
  induction fuel with
  | zero =>
    intro l dss rest h
    cases l with
    | nil => simp [matchGroupsF] at h
    | cons c r =>
      rw [matchGroupsF_zero_cons] at h
      by_cases hc : c = ']'
      · rw [if_pos hc] at h
        obtain ⟨hd, hr⟩ := Prod.mk.injEq .. ▸ (Option.some.injEq .. ▸ h)
        subst hr; simp
      · rw [if_neg hc] at h
        exact absurd h (by simp)
  | succ fuel ih =>
    intro l dss rest h
    cases l with
    | nil => simp [matchGroupsF] at h
    | cons c r =>
      rw [matchGroupsF_succ_cons] at h
      by_cases hc : c = ']'
      · rw [if_pos hc] at h
        obtain ⟨hd, hr⟩ := Prod.mk.injEq .. ▸ (Option.some.injEq .. ▸ h)
        subst hr; simp
      · rw [if_neg hc] at h
        by_cases hc2 : c = ',' ∧ (r.dropWhile jsWhitespace).head? = some '^' ∧
            (r.dropWhile jsWhitespace).tail.takeWhile Char.isDigit ≠ []
        · rw [if_pos hc2] at h
          split at h
          · next dss3 rest3 hrec =>
            obtain ⟨hd, hr⟩ := Prod.mk.injEq .. ▸ (Option.some.injEq .. ▸ h)
            subst hr
            have h1 := ih _ _ _ hrec
            have h2 : ((r.dropWhile jsWhitespace).tail.dropWhile Char.isDigit).length ≤
                (r.dropWhile jsWhitespace).tail.length := length_dropWhile_le _ _
            have h3 : (r.dropWhile jsWhitespace).tail.length ≤ r.length := by
              have h4 : (r.dropWhile jsWhitespace).length ≤ r.length :=
                length_dropWhile_le _ _
              have h5 := List.length_tail (r.dropWhile jsWhitespace)
              omega
            simp only [List.length_cons]
            omega
          · exact absurd h (by simp)
        · rw [if_neg hc2] at h
          exact absurd h (by simp)

lemma matchGrouped_cons2 (c1 c2 : Char) (r : List Char) :
    matchGrouped (c1 :: c2 :: r) =
      if c1 = '[' ∧ c2 = '^' ∧ r.takeWhile Char.isDigit ≠ [] then
        match matchGroupsF r.length (r.dropWhile Char.isDigit) with
        | some (dss, rest2) =>
          if dss = [] then none
          else some (r.takeWhile Char.isDigit :: dss, rest2)
        | none => none
      else none := rfl

lemma matchGrouped_some_len {l : List Char} {dss} {rest : List Char}
    (h : matchGrouped l = some (dss, rest)) : rest.length < l.length := by
  cases l with
  | nil => simp [matchGrouped] at h
  | cons c1 l1 =>
    cases l1 with
    | nil => simp [matchGrouped] at h
    | cons c2 r =>
      rw [matchGrouped_cons2] at h
      by_cases hc : c1 = '[' ∧ c2 = '^' ∧ r.takeWhile Char.isDigit ≠ []
      · rw [if_pos hc] at h
        split at h
        · next dss2 rest2 hrec =>
          by_cases hd : dss2 = []
          · rw [if_pos hd] at h
            exact absurd h (by simp)
          · rw [if_neg hd] at h
            obtain ⟨hds, hr⟩ := Prod.mk.injEq .. ▸ (Option.some.injEq .. ▸ h)
            subst hr
            have h1 := matchGroupsF_some_len _ _ _ _ hrec
            have h2 : (r.dropWhile Char.isDigit).length ≤ r.length :=
              length_dropWhile_le _ _
            simp only [List.length_cons]
            omega
        · exact absurd h (by simp)
      · rw [if_neg hc] at h
        exact absurd h (by simp)

/-! ### Fuel irrelevance and unfolding equations of the scanners -/

lemma extractFootnotesF_succ_cons (fuel : Nat) (c : Char) (rest : List Char) :
    extractFootnotesF (fuel + 1) (c :: rest) =
      match matchSingleFootnote (c :: rest) with
      | some (ds, rest2) => ds :: extractFootnotesF fuel rest2
      | none => extractFootnotesF fuel rest := rfl

lemma extractFootnotesF_congr :
    ∀ n : Nat, ∀ l : List Char, ∀ f1 f2 : Nat, l.length = n → n ≤ f1 → n ≤ f2 →
      extractFootnotesF f1 l = extractFootnotesF f2 l := by
  intro n
  induction n using Nat.strong_induction_on with
  | _ n ih =>
    intro l f1 f2 hn h1 h2
    cases l with
    | nil => cases f1 <;> cases f2 <;> rfl
    | cons c rest =>
      subst hn
      simp only [List.length_cons] at h1 h2 ih
      obtain ⟨g1, rfl⟩ : ∃ g, f1 = g + 1 := ⟨f1 - 1, by omega⟩
      obtain ⟨g2, rfl⟩ : ∃ g, f2 = g + 1 := ⟨f2 - 1, by omega⟩
      rw [extractFootnotesF_succ_cons, extractFootnotesF_succ_cons]
      cases hm : matchSingleFootnote (c :: rest) with
      | some p =>
        obtain ⟨ds, rest2⟩ := p
        have hlen := matchSingleFootnote_some_length hm
        simp only [List.length_cons] at hlen
        show ds :: extractFootnotesF g1 rest2 = ds :: extractFootnotesF g2 rest2
        congr 1
        exact ih rest2.length (by omega) rest2 g1 g2 rfl (by omega) (by omega)
      | none =>
        show extractFootnotesF g1 rest = extractFootnotesF g2 rest
        exact ih rest.length (by omega) rest g1 g2 rfl (by omega) (by omega)

lemma extractFootnotes_cons_some {c : Char} {rest ds rest2 : List Char}
    (h : matchSingleFootnote (c :: rest) = some (ds, rest2)) :
    extractFootnotes (c :: rest) = ds :: extractFootnotes rest2 := by
  have hlen := matchSingleFootnote_some_length h
  simp only [List.length_cons] at hlen
  unfold extractFootnotes
  simp only [List.length_cons]
  rw [extractFootnotesF_succ_cons, h]
  show ds :: extractFootnotesF rest.length rest2 = ds :: extractFootnotesF rest2.length rest2
  congr 1
  exact extractFootnotesF_congr rest2.length rest2 rest.length rest2.length rfl
    (by omega) (Nat.le_refl _)

lemma extractFootnotes_cons_none {c : Char} {rest : List Char}
    (h : matchSingleFootnote (c :: rest) = none) :
    extractFootnotes (c :: rest) = extractFootnotes rest := by
  unfold extractFootnotes
  simp only [List.length_cons]
  rw [extractFootnotesF_succ_cons, h]

lemma stripFootnotesF_succ_cons (fuel : Nat) (c : Char) (rest : List Char) :
    stripFootnotesF (fuel + 1) (c :: rest) =
      match matchSingleFootnote (c :: rest) with
      | some (_, rest2) => stripFootnotesF fuel rest2
      | none => c :: stripFootnotesF fuel rest := rfl

lemma stripFootnotesF_congr :
    ∀ n : Nat, ∀ l : List Char, ∀ f1 f2 : Nat, l.length = n → n ≤ f1 → n ≤ f2 →
      stripFootnotesF f1 l = stripFootnotesF f2 l := by
  intro n
  induction n using Nat.strong_induction_on with
  | _ n ih =>
    intro l f1 f2 hn h1 h2
    cases l with
    | nil => cases f1 <;> cases f2 <;> rfl
    | cons c rest =>
      subst hn
      simp only [List.length_cons] at h1 h2 ih
      obtain ⟨g1, rfl⟩ : ∃ g, f1 = g + 1 := ⟨f1 - 1, by omega⟩
      obtain ⟨g2, rfl⟩ : ∃ g, f2 = g + 1 := ⟨f2 - 1, by omega⟩
      rw [stripFootnotesF_succ_cons, stripFootnotesF_succ_cons]
      cases hm : matchSingleFootnote (c :: rest) with
      | some p =>
        obtain ⟨ds, rest2⟩ := p
        have hlen := matchSingleFootnote_some_length hm
        simp only [List.length_cons] at hlen
        show stripFootnotesF g1 rest2 = stripFootnotesF g2 rest2
        exact ih rest2.length (by omega) rest2 g1 g2 rfl (by omega) (by omega)
      | none =>
        show c :: stripFootnotesF g1 rest = c :: stripFootnotesF g2 rest
        congr 1
        exact ih rest.length (by omega) rest g1 g2 rfl (by omega) (by omega)

lemma stripFootnotes_cons_some {c : Char} {rest ds rest2 : List Char}
    (h : matchSingleFootnote (c :: rest) = some (ds, rest2)) :
    stripFootnotes (c :: rest) = stripFootnotes rest2 := by
  have hlen := matchSingleFootnote_some_length h
  simp only [List.length_cons] at hlen
  unfold stripFootnotes
  simp only [List.length_cons]
  rw [stripFootnotesF_succ_cons, h]
  show stripFootnotesF rest.length rest2 = stripFootnotesF rest2.length rest2
  exact stripFootnotesF_congr rest2.length rest2 rest.length rest2.length rfl
    (by omega) (Nat.le_refl _)

lemma stripFootnotes_cons_none {c : Char} {rest : List Char}
    (h : matchSingleFootnote (c :: rest) = none) :
    stripFootnotes (c :: rest) = c :: stripFootnotes rest := by
  unfold stripFootnotes
  simp only [List.length_cons]
  rw [stripFootnotesF_succ_cons, h]

lemma renumberFootnotesF_succ_cons (fuel k : Nat) (c : Char) (rest : List Char) :
    renumberFootnotesF (fuel + 1) k (c :: rest) =
      match matchSingleFootnote (c :: rest) with
      | some (_, rest2) =>
        singleMarker (natDigits (k + 1)) ++ renumberFootnotesF fuel (k + 1) rest2
      | none => c :: renumberFootnotesF fuel k rest := rfl

lemma renumberFootnotesF_congr :
    ∀ n : Nat, ∀ l : List Char, ∀ k f1 f2 : Nat, l.length = n → n ≤ f1 → n ≤ f2 →
      renumberFootnotesF f1 k l = renumberFootnotesF f2 k l := by
  intro n
  induction n using Nat.strong_induction_on with
  | _ n ih =>
    intro l k f1 f2 hn h1 h2
    cases l with
    | nil => cases f1 <;> cases f2 <;> rfl
    | cons c rest =>
      subst hn
      simp only [List.length_cons] at h1 h2 ih
      obtain ⟨g1, rfl⟩ : ∃ g, f1 = g + 1 := ⟨f1 - 1, by omega⟩
      obtain ⟨g2, rfl⟩ : ∃ g, f2 = g + 1 := ⟨f2 - 1, by omega⟩
      rw [renumberFootnotesF_succ_cons, renumberFootnotesF_succ_cons]
      cases hm : matchSingleFootnote (c :: rest) with
      | some p =>
        obtain ⟨ds, rest2⟩ := p
        have hlen := matchSingleFootnote_some_length hm
        simp only [List.length_cons] at hlen
        show singleMarker (natDigits (k + 1)) ++ renumberFootnotesF g1 (k + 1) rest2 =
          singleMarker (natDigits (k + 1)) ++ renumberFootnotesF g2 (k + 1) rest2
        congr 1
        exact ih rest2.length (by omega) rest2 (k + 1) g1 g2 rfl (by omega) (by omega)
      | none =>
        show c :: renumberFootnotesF g1 k rest = c :: renumberFootnotesF g2 k rest
        congr 1
        exact ih rest.length (by omega) rest k g1 g2 rfl (by omega) (by omega)

lemma renumberFootnotes_cons_some {c : Char} {rest ds rest2 : List Char} {k : Nat}
    (h : matchSingleFootnote (c :: rest) = some (ds, rest2)) :
    renumberFootnotes k (c :: rest) =
      singleMarker (natDigits (k + 1)) ++ renumberFootnotes (k + 1) rest2 := by
  have hlen := matchSingleFootnote_some_length h
  simp only [List.length_cons] at hlen
  unfold renumberFootnotes
  simp only [List.length_cons]
  rw [renumberFootnotesF_succ_cons, h]
  show singleMarker (natDigits (k + 1)) ++ renumberFootnotesF rest.length (k + 1) rest2 =
    singleMarker (natDigits (k + 1)) ++ renumberFootnotesF rest2.length (k + 1) rest2
  congr 1
  exact renumberFootnotesF_congr rest2.length rest2 (k + 1) rest.length rest2.length rfl
    (by omega) (Nat.le_refl _)

lemma renumberFootnotes_cons_none {c : Char} {rest : List Char} {k : Nat}
    (h : matchSingleFootnote (c :: rest) = none) :
    renumberFootnotes k (c :: rest) = c :: renumberFootnotes k rest := by
  unfold renumberFootnotes
  simp only [List.length_cons]
  rw [renumberFootnotesF_succ_cons, h]

lemma fixGroupedF_succ_cons (fuel : Nat) (c : Char) (rest : List Char) :
    fixGroupedF (fuel + 1) (c :: rest) =
      match matchGrouped (c :: rest) with
      | some (dss, rest2) => groupedReplacement dss ++ fixGroupedF fuel rest2
      | none => c :: fixGroupedF fuel rest := rfl

lemma fixGroupedF_congr :
    ∀ n : Nat, ∀ l : List Char, ∀ f1 f2 : Nat, l.length = n → n ≤ f1 → n ≤ f2 →
      fixGroupedF f1 l = fixGroupedF f2 l := by
  intro n
  induction n using Nat.strong_induction_on with
  | _ n ih =>
    intro l f1 f2 hn h1 h2
    cases l with
    | nil => cases f1 <;> cases f2 <;> rfl
    | cons c rest =>
      subst hn
      simp only [List.length_cons] at h1 h2 ih
      obtain ⟨g1, rfl⟩ : ∃ g, f1 = g + 1 := ⟨f1 - 1, by omega⟩
      obtain ⟨g2, rfl⟩ : ∃ g, f2 = g + 1 := ⟨f2 - 1, by omega⟩
      rw [fixGroupedF_succ_cons, fixGroupedF_succ_cons]
      cases hm : matchGrouped (c :: rest) with
      | some p =>
        obtain ⟨dss, rest2⟩ := p
        have hlen := matchGrouped_some_len hm
        simp only [List.length_cons] at hlen
        show groupedReplacement dss ++ fixGroupedF g1 rest2 =
          groupedReplacement dss ++ fixGroupedF g2 rest2
        congr 1
        exact ih rest2.length (by omega) rest2 g1 g2 rfl (by omega) (by omega)
      | none =>
        show c :: fixGroupedF g1 rest = c :: fixGroupedF g2 rest
        congr 1
        exact ih rest.length (by omega) rest g1 g2 rfl (by omega) (by omega)

lemma fixGrouped_cons_some {c : Char} {rest : List Char} {dss} {rest2 : List Char}
    (h : matchGrouped (c :: rest) = some (dss, rest2)) :
    fixGrouped (c :: rest) = groupedReplacement dss ++ fixGrouped rest2 := by
  have hlen := matchGrouped_some_len h
  simp only [List.length_cons] at hlen
  unfold fixGrouped
  simp only [List.length_cons]
  rw [fixGroupedF_succ_cons, h]
  show groupedReplacement dss ++ fixGroupedF rest.length rest2 =
    groupedReplacement dss ++ fixGroupedF rest2.length rest2
  congr 1
  exact fixGroupedF_congr rest2.length rest2 rest.length rest2.length rfl
    (by omega) (Nat.le_refl _)

lemma fixGrouped_cons_none {c : Char} {rest : List Char}
    (h : matchGrouped (c :: rest) = none) :
    fixGrouped (c :: rest) = c :: fixGrouped rest := by
  unfold fixGrouped
  simp only [List.length_cons]
  rw [fixGroupedF_succ_cons, h]

/-! ### Decimal rendering: basic properties -/

lemma digitChar_isDigit (d : Nat) : (digitChar d).isDigit = true := by
  rcases d with _|_|_|_|_|_|_|_|_|d <;> rfl

lemma natDigitsF_succ (fuel n : Nat) :
    natDigitsF (fuel + 1) n =
      if n < 10 then [digitChar n]
      else natDigitsF fuel (n / 10) ++ [digitChar (n % 10)] := rfl

lemma natDigitsF_congr :
    ∀ n f1 f2 : Nat, n < f1 → n < f2 → natDigitsF f1 n = natDigitsF f2 n := by
  intro n
  induction n using Nat.strong_induction_on with
  | _ n ih =>
    intro f1 f2 h1 h2
    obtain ⟨g1, rfl⟩ : ∃ g, f1 = g + 1 := ⟨f1 - 1, by omega⟩
    obtain ⟨g2, rfl⟩ : ∃ g, f2 = g + 1 := ⟨f2 - 1, by omega⟩
    rw [natDigitsF_succ, natDigitsF_succ]
    by_cases hn : n < 10
    · rw [if_pos hn, if_pos hn]
    · rw [if_neg hn, if_neg hn]
      have hlt : n / 10 < n := Nat.div_lt_self (by omega) (by omega)
      congr 1
      exact ih (n / 10) hlt g1 g2 (by omega) (by omega)

lemma natDigits_eq (n : Nat) :
    natDigits n =
      if n < 10 then [digitChar n]
      else natDigits (n / 10) ++ [digitChar (n % 10)] := by
  unfold natDigits
  rw [natDigitsF_succ]
  by_cases hn : n < 10
  · rw [if_pos hn, if_pos hn]
  · rw [if_neg hn, if_neg hn]
    have hlt : n / 10 < n := Nat.div_lt_self (by omega) (by omega)
    congr 1
    exact natDigitsF_congr (n / 10) n (n / 10 + 1) hlt (by omega)

lemma natDigits_ne_nil (n : Nat) : natDigits n ≠ [] := by
  rw [natDigits_eq]
  by_cases hn : n < 10
  · simp [hn]
  · simp [hn]

lemma natDigits_all_digit (n : Nat) : (natDigits n).all Char.isDigit = true := by
  induction n using Nat.strong_induction_on with
  | _ n ih =>
    rw [natDigits_eq]
    by_cases hn : n < 10
    · simp [hn, digitChar_isDigit]
    · rw [if_neg hn]
      rw [List.all_append]
      have h1 := ih (n / 10) (Nat.div_lt_self (by omega) (by omega))
      simp [h1, digitChar_isDigit]

/-! ### Scanning sequences of well-formed markers -/

lemma extractFootnotes_marker_head (ds rest : List Char) (h1 : ds ≠ [])
    (h2 : ds.all Char.isDigit = true) :
    extractFootnotes (singleMarker ds ++ rest) = ds :: extractFootnotes rest := by
  have hshape : singleMarker ds ++ rest = '[' :: '^' :: (ds ++ ']' :: rest) := by
    simp [singleMarker]
  rw [hshape]
  exact extractFootnotes_cons_some (matchSingleFootnote_mk ds rest h1 h2)

lemma extractFootnotes_flatten_markers (dss : List (List Char))
    (h : ∀ ds ∈ dss, ds ≠ [] ∧ ds.all Char.isDigit = true) :
    extractFootnotes ((dss.map singleMarker).flatten) = dss := by
  induction dss with
  | nil => rfl
  | cons ds dss ih =>
    simp only [List.map_cons, List.flatten_cons]
    rw [extractFootnotes_marker_head ds _ (h ds (by simp)).1 (h ds (by simp)).2]
    congr 1
    exact ih (fun d hd => h d (by simp [hd]))

lemma extractFootnotes_allRefMarkers (n : Nat) :
    extractFootnotes (allRefMarkers n) =
      (List.range n).map (fun i => natDigits (i + 1)) := by
  unfold allRefMarkers
  have hmaps : (List.range n).map (fun i => singleMarker (natDigits (i + 1))) =
      ((List.range n).map (fun i => natDigits (i + 1))).map singleMarker := by
    rw [List.map_map]
    rfl
  rw [hmaps]
  rw [extractFootnotes_flatten_markers]
  intro ds hds
  simp only [List.mem_map] at hds
  obtain ⟨i, _, rfl⟩ := hds
  exact ⟨natDigits_ne_nil _, natDigits_all_digit _⟩

/-! ### The correction rewrite renumbers markers sequentially -/

lemma matchSingleFootnote_ne_bracket {c : Char} {l : List Char} (hc : c ≠ '[') :
    matchSingleFootnote (c :: l) = none := by
  cases l with
  | nil => rfl
  | cons c2 r =>
    rw [matchSingleFootnote_cons2, if_neg]
    intro hh
    exact hc hh.1

lemma renumberFootnotes_nil (k : Nat) : renumberFootnotes k [] = [] := rfl

lemma renumberFootnotes_head? (k : Nat) (l : List Char) :
    (renumberFootnotes k l).head? = l.head? := by
  cases l with
  | nil => rfl
  | cons c rest =>
    cases hm : matchSingleFootnote (c :: rest) with
    | some p =>
      obtain ⟨ds, rest2⟩ := p
      rw [renumberFootnotes_cons_some hm]
      obtain ⟨_, _, hshape⟩ := matchSingleFootnote_some_shape hm
      obtain ⟨hc, _⟩ := List.cons.injEq .. ▸ hshape
      rw [hc]
      rfl
    | none =>
      rw [renumberFootnotes_cons_none hm]
      rfl

lemma renumber_digits_prefix_reflect :
    ∀ ds u : List Char, ∀ k : Nat, ∀ v : List Char,
      ds ≠ [] → ds.all Char.isDigit = true →
      renumberFootnotes k u = ds ++ ']' :: v →
      ∃ v0, u = ds ++ ']' :: v0 := by
  intro ds
  induction ds with
  | nil => intro u k v h1 _ _; exact absurd rfl h1
  | cons d ds ih =>
    intro u k v _ hdig hren
    have hd_digit : d.isDigit = true := by
      have := List.all_eq_true.mp hdig d (by simp)
      exact this
    cases u with
    | nil =>
      have h0 : ([] : List Char) = (d :: ds) ++ ']' :: v := hren
      simp at h0
    | cons c rest =>
      cases hm : matchSingleFootnote (c :: rest) with
      | some p =>
        obtain ⟨ds2, rest2⟩ := p
        rw [renumberFootnotes_cons_some hm] at hren
        have hhead : '[' = d := by
          have := congrArg List.head? hren
          simpa [singleMarker] using this
        rw [← hhead] at hd_digit
        exact absurd hd_digit (by decide)
      | none =>
        rw [renumberFootnotes_cons_none hm] at hren
        obtain ⟨hcd, hrest⟩ := List.cons.injEq .. ▸ hren
        subst hcd
        by_cases hds : ds = []
        · subst hds
          have hhead : rest.head? = some ']' := by
            rw [← renumberFootnotes_head? k rest, hrest]
            rfl
          have hr : rest = ']' :: rest.tail := head?_eq_some_cons hhead
          exact ⟨rest.tail, by rw [hr]; rfl⟩
        · have hdig2 : ds.all Char.isDigit = true := by
            rw [List.all_eq_true] at hdig ⊢
            intro a ha
            exact hdig a (by simp [ha])
          obtain ⟨v0, hv0⟩ := ih rest k v hds hdig2 hrest
          exact ⟨v0, by rw [hv0]; rfl⟩

lemma matchSingleFootnote_none_renumber {c : Char} {l : List Char} (k : Nat)
    (h : matchSingleFootnote (c :: l) = none) :
    matchSingleFootnote (c :: renumberFootnotes k l) = none := by
  cases hm : matchSingleFootnote (c :: renumberFootnotes k l) with
  | none => rfl
  | some p =>
    obtain ⟨ds, rest⟩ := p
    obtain ⟨hne, hdig, hshape⟩ := matchSingleFootnote_some_shape hm
    obtain ⟨hc, hrest⟩ := List.cons.injEq .. ▸ hshape
    subst hc
    have hhead : l.head? = some '^' := by
      rw [← renumberFootnotes_head? k l, hrest]
      rfl
    have hl : l = '^' :: l.tail := head?_eq_some_cons hhead
    have hmt : matchSingleFootnote ('^' :: l.tail) = none :=
      matchSingleFootnote_ne_bracket (by decide)
    rw [hl, renumberFootnotes_cons_none hmt] at hrest
    obtain ⟨_, hrest2⟩ := List.cons.injEq .. ▸ hrest
    obtain ⟨v0, hv0⟩ := renumber_digits_prefix_reflect ds l.tail k rest hne hdig hrest2
    rw [hl, hv0] at h
    rw [matchSingleFootnote_mk ds v0 hne hdig] at h
    exact absurd h (by simp)

lemma extractFootnotes_renumber :
    ∀ n : Nat, ∀ l : List Char, l.length = n → ∀ k : Nat,
      extractFootnotes (renumberFootnotes k l) =
        (List.range (extractFootnotes l).length).map (fun i => natDigits (k + i + 1)) := by
  intro n
  induction n using Nat.strong_induction_on with
  | _ n ih =>
    intro l hn k
    cases l with
    | nil => rfl
    | cons c rest =>
      subst hn
      simp only [List.length_cons] at ih
      cases hm : matchSingleFootnote (c :: rest) with
      | some p =>
        obtain ⟨ds, rest2⟩ := p
        rw [renumberFootnotes_cons_some hm, extractFootnotes_cons_some hm]
        rw [extractFootnotes_marker_head _ _ (natDigits_ne_nil _) (natDigits_all_digit _)]
        have hlen := matchSingleFootnote_some_length hm
        simp only [List.length_cons] at hlen
        rw [ih rest2.length (by omega) rest2 rfl (k + 1)]
        simp only [List.length_cons]
        rw [List.range_succ_eq_map]
        simp only [List.map_cons, List.map_map, Nat.add_zero]
        congr 1
        apply List.map_congr_left
        intro i _
        show natDigits (k + 1 + i + 1) = natDigits (k + (i + 1) + 1)
        congr 1
        omega
      | none =>
        rw [renumberFootnotes_cons_none hm,
          extractFootnotes_cons_none (matchSingleFootnote_none_renumber k hm),
          extractFootnotes_cons_none hm]
        exact ih rest.length (by omega) rest rfl k

/-! ### Trimming lemmas -/

lemma head?_dropWhile_ws {l : List Char} {c : Char}
    (h : (l.dropWhile jsWhitespace).head? = some c) : jsWhitespace c = false := by
  have hd := List.head?_dropWhile_not jsWhitespace l
  rw [h] at hd
  exact hd

lemma jsLtrim_head {l : List Char} {c : Char} (h : (jsLtrim l).head? = some c) :
    jsWhitespace c = false := head?_dropWhile_ws h

lemma jsLtrim_of_head_not_ws {l : List Char} {c : Char} (h1 : l.head? = some c)
    (h2 : jsWhitespace c = false) : jsLtrim l = l := by
  have hl : l = c :: l.tail := head?_eq_some_cons h1
  rw [hl]
  unfold jsLtrim
  rw [List.dropWhile_cons, if_neg (by simp [h2])]

lemma jsRtrim_eq_nil_iff {l : List Char} :
    jsRtrim l = [] ↔ ∀ c ∈ l, jsWhitespace c = true := by
  unfold jsRtrim
  constructor
  · intro h c hc
    have h2 : l.reverse.dropWhile jsWhitespace = [] := by
      have h3 := congrArg List.reverse h
      simpa using h3
    exact List.dropWhile_eq_nil_iff.mp h2 c (by simp [hc])
  · intro h
    have h2 : l.reverse.dropWhile jsWhitespace = [] :=
      List.dropWhile_eq_nil_iff.mpr (fun c hc => h c (by simp at hc; exact hc))
    rw [h2]
    rfl

lemma jsRtrim_append {x y : List Char} :
    jsRtrim (x ++ y) = if jsRtrim y = [] then jsRtrim x else x ++ jsRtrim y := by
  unfold jsRtrim
  rw [List.reverse_append, List.dropWhile_append]
  by_cases hy : (y.reverse.dropWhile jsWhitespace).isEmpty = true
  · have hy' : (y.reverse.dropWhile jsWhitespace).reverse = [] := by
      rw [List.isEmpty_iff.mp hy]
      rfl
    rw [if_pos hy, if_pos hy']
  · have hy' : ¬ ((y.reverse.dropWhile jsWhitespace).reverse = []) := by
      intro hcon
      apply hy
      rw [List.isEmpty_iff]
      have h3 := congrArg List.reverse hcon
      simpa using h3
    rw [if_neg hy, if_neg hy']
    rw [List.reverse_append, List.reverse_reverse]

lemma jsRtrim_append_ws {x S : List Char} (h : ∀ c ∈ S, jsWhitespace c = true) :
    jsRtrim (x ++ S) = jsRtrim x := by
  rw [jsRtrim_append, if_pos (jsRtrim_eq_nil_iff.mpr h)]

lemma jsRtrim_ne_nil_of_mem {l : List Char} {c : Char} (hc : c ∈ l)
    (h : jsWhitespace c = false) : jsRtrim l ≠ [] := by
  intro hcon
  have h2 := jsRtrim_eq_nil_iff.mp hcon c hc
  rw [h] at h2
  exact absurd h2 (by decide)

lemma jsRtrim_append_keep {x y : List Char} (h : jsRtrim y ≠ []) :
    jsRtrim (x ++ y) = x ++ jsRtrim y := by
  rw [jsRtrim_append, if_neg h]

lemma jsRtrim_getLast {l : List Char} {c : Char} (h : (jsRtrim l).getLast? = some c) :
    jsWhitespace c = false := by
  unfold jsRtrim at h
  rw [List.getLast?_reverse] at h
  exact head?_dropWhile_ws h

lemma jsRtrim_isPrefixOf_self (l : List Char) : jsRtrim l <+: l := by
  have h1 : l.reverse.dropWhile jsWhitespace <:+ l.reverse := List.dropWhile_suffix _
  have h2 := List.reverse_prefix.mpr h1
  rw [List.reverse_reverse] at h2
  exact h2

lemma head?_of_isPre {p l : List Char} (h : p <+: l) (hp : p ≠ []) : p.head? = l.head? := by
  obtain ⟨t, rfl⟩ := h
  cases p with
  | nil => exact absurd rfl hp
  | cons c r => rfl

lemma jsTrim_concat {pre B : List Char} {c : Char} (h1 : B.head? = some c)
    (h2 : jsWhitespace c = false) :
    jsTrim (pre ++ B) = jsLtrim pre ++ jsRtrim B := by
  have hmem : c ∈ B := by
    rw [head?_eq_some_cons h1]
    exact List.mem_cons_self c B.tail
  unfold jsTrim
  show jsRtrim ((pre ++ B).dropWhile jsWhitespace) = jsLtrim pre ++ jsRtrim B
  rw [List.dropWhile_append]
  by_cases hp : (pre.dropWhile jsWhitespace).isEmpty = true
  · rw [if_pos hp]
    have hpre : jsLtrim pre = [] := List.isEmpty_iff.mp hp
    rw [hpre]
    rw [show B.dropWhile jsWhitespace = B from jsLtrim_of_head_not_ws h1 h2]
    rfl
  · rw [if_neg hp]
    exact jsRtrim_append_keep (jsRtrim_ne_nil_of_mem hmem h2)

lemma jsTrim_head {l : List Char} {c : Char} (h : (jsTrim l).head? = some c) :
    jsWhitespace c = false := by
  unfold jsTrim at h
  have hne : jsRtrim (jsLtrim l) ≠ [] := by
    intro hcon
    rw [hcon] at h
    exact absurd h (by simp)
  rw [head?_of_isPre (jsRtrim_isPrefixOf_self (jsLtrim l)) hne] at h
  exact jsLtrim_head h

lemma jsTrim_getLast {l : List Char} {c : Char} (h : (jsTrim l).getLast? = some c) :
    jsWhitespace c = false := jsRtrim_getLast h

/-! ### Structure of the reference block -/

lemma bracketCaret_data : ("[^".data : List Char) = ['[', '^'] := by decide

lemma formatReference_url_none (isLN : Char → Bool) (i : Nat) (q : List Char) :
    formatReference isLN i ⟨q, none⟩ =
      some ("[^".data ++ natDigits (i + 1) ++ "]: ".data ++ cleanQuote isLN q) := rfl

lemma formatReference_url_some (isLN : Char → Bool) (i : Nat) (q url : List Char) :
    formatReference isLN i ⟨q, some url⟩ =
      (if listStartsWith url ("http".data) then
        match parseURLHostname url with
        | none => none
        | some hostname =>
          some (("[^".data ++ natDigits (i + 1) ++ "]: ".data ++ cleanQuote isLN q) ++
            " [".data ++ replaceFirst hostname ("www.".data) [] ++
            "](".data ++ url ++ ")".data)
      else some ("[^".data ++ natDigits (i + 1) ++ "]: ".data ++ cleanQuote isLN q)) := rfl

lemma citation_head (x : List Char) :
    ("[^".data ++ x).head? = some '[' := by
  rw [bracketCaret_data]
  rfl

lemma formatReference_head {isLN : Char → Bool} {i : Nat} {r : Reference}
    {line : List Char} (h : formatReference isLN i r = some line) :
    line.head? = some '[' := by
  obtain ⟨q, u⟩ := r
  cases u with
  | none =>
    rw [formatReference_url_none] at h
    have hl := (Option.some.injEq .. ▸ h).symm
    rw [hl]
    exact citation_head _
  | some url =>
    rw [formatReference_url_some] at h
    by_cases hs : listStartsWith url ("http".data) = true
    · rw [if_pos hs] at h
      cases hp : parseURLHostname url with
      | none =>
        rw [hp] at h
        exact absurd h (by simp)
      | some hostname =>
        rw [hp] at h
        have hl := (Option.some.injEq .. ▸ h).symm
        rw [hl]
        rw [show ("[^".data ++ natDigits (i + 1) ++ "]: ".data ++ cleanQuote isLN q) ++
            " [".data ++ replaceFirst hostname ("www.".data) [] ++
            "](".data ++ url ++ ")".data =
          "[^".data ++ (natDigits (i + 1) ++ "]: ".data ++ cleanQuote isLN q ++
            " [".data ++ replaceFirst hostname ("www.".data) [] ++
            "](".data ++ url ++ ")".data) from by simp [List.append_assoc]]
        exact citation_head _
    · rw [if_neg hs] at h
      have hl := (Option.some.injEq .. ▸ h).symm
      rw [hl]
      exact citation_head _

lemma formatReferencesAux_cons (isLN : Char → Bool) (i : Nat) (r : Reference)
    (refs : List Reference) :
    formatReferencesAux isLN i (r :: refs) =
      match formatReference isLN i r, formatReferencesAux isLN (i + 1) refs with
      | some line, some lines => some (line :: lines)
      | _, _ => none := rfl

lemma formatReferencesAux_forall2 :
    ∀ refs : List Reference, ∀ isLN : Char → Bool, ∀ i : Nat, ∀ lines,
      formatReferencesAux isLN i refs = some lines →
      List.Forall₂ (fun line (p : Nat × Reference) => formatReference isLN p.1 p.2 = some line)
        lines (List.enumFrom i refs) := by
  intro refs
  induction refs with
  | nil =>
    intro isLN i lines h
    have hl : lines = [] := (Option.some.injEq .. ▸ h).symm
    subst hl
    simp [List.enumFrom]
  | cons r rs ih =>
    intro isLN i lines h
    rw [formatReferencesAux_cons] at h
    cases h1 : formatReference isLN i r with
    | none =>
      rw [h1] at h
      exact absurd h (by simp)
    | some line =>
      rw [h1] at h
      cases h2 : formatReferencesAux isLN (i + 1) rs with
      | none =>
        rw [h2] at h
        exact absurd h (by simp)
      | some lines2 =>
        rw [h2] at h
        have hl : line :: lines2 = lines := Option.some.injEq .. ▸ h
        subst hl
        show List.Forall₂ _ (line :: lines2) ((i, r) :: List.enumFrom (i + 1) rs)
        exact List.Forall₂.cons h1 (ih isLN (i + 1) lines2 h2)

lemma joinSep_head {sep l : List Char} {ls : List (List Char)} (hl : l ≠ []) :
    (joinSep sep (l :: ls)).head? = l.head? := by
  cases ls with
  | nil => rfl
  | cons l2 ls2 =>
    show (l ++ sep ++ joinSep sep (l2 :: ls2)).head? = l.head?
    rw [List.append_assoc, List.head?_append]
    cases l with
    | nil => exact absurd rfl hl
    | cons c t => rfl

lemma formatReferences_head {isLN : Char → Bool} {refs : List Reference}
    {block : List Char} (h1 : refs ≠ []) (h : formatReferences isLN refs = some block) :
    block.head? = some '[' := by
  unfold formatReferences at h
  cases ha : formatReferencesAux isLN 0 refs with
  | none =>
    rw [ha] at h
    exact absurd h (by simp)
  | some lines =>
    rw [ha] at h
    simp only [Option.map_some'] at h
    have hb : joinSep ("\n\n".data) lines = block := Option.some.injEq .. ▸ h
    cases refs with
    | nil => exact absurd rfl h1
    | cons r rs =>
      have hf2 := formatReferencesAux_forall2 (r :: rs) isLN 0 lines ha
      cases lines with
      | nil =>
        cases hf2  -- Forall₂ [] ((0, r) :: ...) is impossible
      | cons line lines2 =>
        have hline : formatReference isLN 0 r = some line := by
          cases hf2 with
          | cons hh _ => exact hh
        have hhead := formatReference_head hline
        have hne : line ≠ [] := by
          intro hcon
          rw [hcon] at hhead
          exact absurd hhead (by simp)
        rw [← hb, joinSep_head hne]
        exact hhead

/-! ### The branches of the reconciler -/

lemma buildMd_empty_refs (isLN : Char → Bool) (a : AnswerAction)
    (h : a.references = []) :
    buildMdFromAnswer isLN a = some (stripFootnotes (fixGrouped a.answer)) := by
  unfold buildMdFromAnswer
  rw [h]
  rfl

lemma buildMd_no_markers (isLN : Char → Bool) (a : AnswerAction)
    (h1 : a.references ≠ []) (h2 : extractFootnotes (fixGrouped a.answer) = []) :
    buildMdFromAnswer isLN a = (formatReferences isLN a.references).map (fun refs =>
      jsTrim ("\n".data ++ fixGrouped a.answer ++ "\n\n⁜".data ++
        allRefMarkers a.references.length ++ "\n\n".data ++ refs ++ "\n".data)) := by
  simp only [buildMdFromAnswer]
  rw [if_neg (isEmpty_eq_true_ne _ h1), h2]
  rfl

lemma buildMd_correction (isLN : Char → Bool) (a : AnswerAction)
    (h1 : a.references ≠ [])
    (h2 : extractFootnotes (fixGrouped a.answer) ≠ [])
    (h3 : needsCorrection (extractFootnotes (fixGrouped a.answer))
      a.references.length = true) :
    buildMdFromAnswer isLN a = (formatReferences isLN a.references).map (fun refs =>
      jsTrim ("\n".data ++ renumberFootnotes 0 (fixGrouped a.answer) ++ "\n\n".data ++
        refs ++ "\n".data)) := by
  simp only [buildMdFromAnswer]
  rw [if_neg (isEmpty_eq_true_ne _ h1)]
  rw [if_neg (isEmpty_eq_true_ne _ h2)]
  rw [if_neg (show ¬ (((extractFootnotes (fixGrouped a.answer)).length <
      a.references.length) && !needsCorrection (extractFootnotes (fixGrouped a.answer))
      a.references.length) = true from by rw [h3]; simp)]
  rw [if_neg (show ¬ (!needsCorrection (extractFootnotes (fixGrouped a.answer))
      a.references.length) = true from by rw [h3]; simp)]

lemma buildMd_some_shape {isLN : Char → Bool} {a : AnswerAction} {out : List Char}
    (h1 : a.references ≠ []) (h : buildMdFromAnswer isLN a = some out) :
    ∃ pre block, formatReferences isLN a.references = some block ∧
      block.head? = some '[' ∧ out = jsLtrim pre ++ jsRtrim block := by
  have hmain : ∃ pre block, formatReferences isLN a.references = some block ∧
      out = jsTrim (pre ++ (block ++ "\n".data)) := by
    simp only [buildMdFromAnswer] at h
    rw [if_neg (isEmpty_eq_true_ne _ h1)] at h
    cases hfr : formatReferences isLN a.references with
    | none =>
      rw [hfr] at h
      by_cases h2 : (extractFootnotes (fixGrouped a.answer)).isEmpty = true
      · rw [if_pos h2] at h
        exact absurd h (by simp)
      · rw [if_neg h2] at h
        by_cases h3 : (((extractFootnotes (fixGrouped a.answer)).length <
            a.references.length) && !needsCorrection
            (extractFootnotes (fixGrouped a.answer)) a.references.length) = true
        · rw [if_pos h3] at h
          exact absurd h (by simp)
        · rw [if_neg h3] at h
          by_cases h4 : (!needsCorrection (extractFootnotes (fixGrouped a.answer))
              a.references.length) = true
          · rw [if_pos h4] at h
            exact absurd h (by simp)
          · rw [if_neg h4] at h
            exact absurd h (by simp)
    | some block =>
      rw [hfr] at h
      by_cases h2 : (extractFootnotes (fixGrouped a.answer)).isEmpty = true
      · rw [if_pos h2] at h
        simp only [Option.map_some'] at h
        refine ⟨"\n".data ++ fixGrouped a.answer ++ "\n\n⁜".data ++
          allRefMarkers a.references.length ++ "\n\n".data, block, rfl, ?_⟩
        rw [← Option.some.inj h]
        congr 1
        simp [List.append_assoc]
      · rw [if_neg h2] at h
        by_cases h3 : (((extractFootnotes (fixGrouped a.answer)).length <
            a.references.length) && !needsCorrection
            (extractFootnotes (fixGrouped a.answer)) a.references.length) = true
        · rw [if_pos h3] at h
          simp only [Option.map_some'] at h
          refine ⟨"\n".data ++ fixGrouped a.answer ++ " \n\n⁜".data ++
            unusedRefMarkers (extractFootnotes (fixGrouped a.answer))
              a.references.length ++ "\n\n".data, block, rfl, ?_⟩
          rw [← Option.some.inj h]
          congr 1
          simp [List.append_assoc]
        · rw [if_neg h3] at h
          by_cases h4 : (!needsCorrection (extractFootnotes (fixGrouped a.answer))
              a.references.length) = true
          · rw [if_pos h4] at h
            simp only [Option.map_some'] at h
            refine ⟨"\n".data ++ fixGrouped a.answer ++ "\n\n".data, block, rfl, ?_⟩
            rw [← Option.some.inj h]
            congr 1
            simp [List.append_assoc]
          · rw [if_neg h4] at h
            simp only [Option.map_some'] at h
            refine ⟨"\n".data ++ renumberFootnotes 0 (fixGrouped a.answer) ++
              "\n\n".data, block, rfl, ?_⟩
            rw [← Option.some.inj h]
            congr 1
            simp [List.append_assoc]
  obtain ⟨pre, block, hfr, hout⟩ := hmain
  have hbh : block.head? = some '[' := formatReferences_head h1 hfr
  have hBh : (block ++ "\n".data).head? = some '[' := by
    rw [List.head?_append, hbh]
    rfl
  refine ⟨pre, block, hfr, hbh, ?_⟩
  rw [hout, jsTrim_concat hBh (by decide)]
  rw [jsRtrim_append_ws (by decide)]

/-! ### Stripping accounts for every scanned marker -/

lemma stripFootnotes_length :
    ∀ n : Nat, ∀ s : List Char, s.length = n →
      (stripFootnotes s).length +
        ((extractFootnotes s).map (fun ds => ds.length + 3)).sum = s.length := by
  intro n
  induction n using Nat.strong_induction_on with
  | _ n ih =>
    intro s hn
    cases s with
    | nil => simp [stripFootnotes, extractFootnotes, stripFootnotesF, extractFootnotesF]
    | cons c rest =>
      subst hn
      simp only [List.length_cons] at ih
      cases hm : matchSingleFootnote (c :: rest) with
      | some p =>
        obtain ⟨ds, rest2⟩ := p
        rw [stripFootnotes_cons_some hm, extractFootnotes_cons_some hm]
        obtain ⟨_, _, hshape⟩ := matchSingleFootnote_some_shape hm
        have hlen := congrArg List.length hshape
        simp at hlen
        have hrec := ih rest2.length (by omega) rest2 rfl
        simp only [List.map_cons, List.sum_cons, List.length_cons]
        omega
      | none =>
        rw [stripFootnotes_cons_none hm, extractFootnotes_cons_none hm]
        have hrec := ih rest.length (by omega) rest rfl
        simp only [List.length_cons]
        omega

/-! ### Quote cleaning -/

lemma collapseWsGo_cons (b : Bool) (a : Char) (rest : List Char) :
    collapseWsGo b (a :: rest) =
      if jsWhitespace a then (if b then [] else [' ']) ++ collapseWsGo true rest
      else a :: collapseWsGo false rest := rfl

lemma collapseWsGo_mem :
    ∀ l : List Char, ∀ b : Bool, ∀ c : Char, c ∈ collapseWsGo b l →
      c = ' ' ∨ (c ∈ l ∧ jsWhitespace c = false) := by
  intro l
  induction l with
  | nil => intro b c hc; simp [collapseWsGo] at hc
  | cons a rest ih =>
    intro b c hc
    rw [collapseWsGo_cons] at hc
    by_cases hw : jsWhitespace a = true
    · rw [if_pos hw] at hc
      rw [List.mem_append] at hc
      rcases hc with hc | hc
      · left
        cases b with
        | true => simp at hc
        | false => simpa using hc
      · rcases ih true c hc with h | ⟨hm, hnw⟩
        · left; exact h
        · right; exact ⟨by simp [hm], hnw⟩
    · rw [if_neg hw] at hc
      have hw' : jsWhitespace a = false := by simpa using hw
      rcases List.mem_cons.mp hc with hc | hc
      · right; exact ⟨by simp [hc], by rw [hc]; exact hw'⟩
      · rcases ih false c hc with h | ⟨hm, hnw⟩
        · left; exact h
        · right; exact ⟨by simp [hm], hnw⟩

lemma collapseWsGo_head_ws :
    ∀ l : List Char, ∀ c : Char,
      (collapseWsGo true l).head? = some c → jsWhitespace c = false := by
  intro l
  induction l with
  | nil => intro c hc; simp [collapseWsGo] at hc
  | cons a rest ih =>
    intro c hc
    rw [collapseWsGo_cons] at hc
    by_cases hw : jsWhitespace a = true
    · rw [if_pos hw] at hc
      rw [show (if true = true then ([] : List Char) else [' ']) = [] from rfl] at hc
      rw [List.nil_append] at hc
      exact ih c hc
    · rw [if_neg hw] at hc
      have hc2 : a = c := by simpa using hc
      rw [← hc2]
      simpa using hw

lemma collapseWsGo_chain :
    ∀ l : List Char, ∀ b : Bool,
      List.Chain' (fun x y => jsWhitespace x = false ∨ jsWhitespace y = false)
        (collapseWsGo b l) := by
  intro l
  induction l with
  | nil => intro b; simp [collapseWsGo]
  | cons a rest ih =>
    intro b
    rw [collapseWsGo_cons]
    by_cases hw : jsWhitespace a = true
    · rw [if_pos hw]
      cases b with
      | true =>
        rw [show (if true = true then ([] : List Char) else [' ']) = [] from rfl]
        rw [List.nil_append]
        exact ih true
      | false =>
        rw [show (if false = true then ([] : List Char) else [' ']) = [' '] from rfl]
        rw [List.singleton_append]
        rw [List.chain'_cons']
        refine ⟨?_, ih true⟩
        intro y hy
        right
        exact collapseWsGo_head_ws rest y hy
    · rw [if_neg hw]
      rw [List.chain'_cons']
      refine ⟨?_, ih false⟩
      intro y _
      left
      simpa using hw

lemma cleanQuote_chars (isLN : Char → Bool) (q : List Char) :
    ∀ c ∈ cleanQuote isLN q, c = ' ' ∨ (isLN c = true ∧ jsWhitespace c = false) := by
  intro c hc
  have h1 := collapseWsGo_mem _ false c hc
  rcases h1 with h1 | ⟨hmem, hnw⟩
  · left; exact h1
  · right
    simp only [List.mem_map] at hmem
    obtain ⟨c0, _, hc0⟩ := hmem
    by_cases hcase : (isLN c0 || jsWhitespace c0) = true
    · rw [if_pos hcase] at hc0
      subst hc0
      refine ⟨?_, hnw⟩
      rcases Bool.or_eq_true_iff.mp hcase with h | h
      · exact h
      · rw [hnw] at h
        exact absurd h (by decide)
    · rw [if_neg hcase] at hc0
      subst hc0
      exact absurd hnw (by decide)

lemma cleanQuote_no_adjacent_ws (isLN : Char → Bool) (q : List Char) :
    List.Chain' (fun x y => jsWhitespace x = false ∨ jsWhitespace y = false)
      (cleanQuote isLN q) :=
  collapseWsGo_chain _ false

/-! ### Totality on references without parseable-URL obligations -/

lemma formatReferencesAux_total :
    ∀ refs : List Reference, ∀ isLN : Char → Bool, ∀ i : Nat,
      (∀ r ∈ refs, r.url = none ∨
        ∃ u, r.url = some u ∧ listStartsWith u ("http".data) = false) →
      ∃ lines, formatReferencesAux isLN i refs = some lines := by
  intro refs
  induction refs with
  | nil => intro isLN i _; exact ⟨[], rfl⟩
  | cons r rs ih =>
    intro isLN i hsafe
    obtain ⟨lines, hl⟩ := ih isLN (i + 1) (fun x hx => hsafe x (by simp [hx]))
    have hline : ∃ line, formatReference isLN i r = some line := by
      obtain ⟨q, u0⟩ := r
      rcases hsafe ⟨q, u0⟩ (by simp) with hn | ⟨u, hu, hs⟩
      · simp only at hn
        subst hn
        exact ⟨_, formatReference_url_none isLN i q⟩
      · simp only at hu
        subst hu
        rw [formatReference_url_some]
        rw [if_neg (by simp [hs])]
        exact ⟨_, rfl⟩
    obtain ⟨line, hline⟩ := hline
    rw [formatReferencesAux_cons, hline, hl]
    exact ⟨line :: lines, rfl⟩

lemma buildMd_total (isLN : Char → Bool) (a : AnswerAction)
    (hsafe : ∀ r ∈ a.references, r.url = none ∨
      ∃ u, r.url = some u ∧ listStartsWith u ("http".data) = false) :
    ∃ out, buildMdFromAnswer isLN a = some out := by
  by_cases h1 : a.references = []
  · exact ⟨_, buildMd_empty_refs isLN a h1⟩
  · obtain ⟨lines, hl⟩ := formatReferencesAux_total a.references isLN 0 hsafe
    have hfr : formatReferences isLN a.references = some (joinSep ("\n\n".data) lines) := by
      unfold formatReferences
      rw [hl]
      rfl
    simp only [buildMdFromAnswer]
    rw [if_neg (isEmpty_eq_true_ne _ h1), hfr]
    by_cases h2 : (extractFootnotes (fixGrouped a.answer)).isEmpty = true
    · rw [if_pos h2]; exact ⟨_, rfl⟩
    · rw [if_neg h2]
      by_cases h3 : (decide ((extractFootnotes (fixGrouped a.answer)).length <
          a.references.length) && !needsCorrection
          (extractFootnotes (fixGrouped a.answer)) a.references.length) = true
      · rw [if_pos h3]; exact ⟨_, rfl⟩
      · rw [if_neg h3]
        by_cases h4 : (!needsCorrection (extractFootnotes (fixGrouped a.answer))
            a.references.length) = true
        · rw [if_pos h4]; exact ⟨_, rfl⟩
        · rw [if_neg h4]; exact ⟨_, rfl⟩

/-- Claim C9: the empty string is a left and right identity of
`smartMergeStrings` (the source returns the other string as soon as either
argument is empty). -/
theorem claim_C9_merge_empty_identity :
    ∀ s : List Char, smartMergeStrings s [] = s ∧ smartMergeStrings [] s = s := by
  intro s
  refine ⟨?_, rfl⟩
  cases s with
  | nil => rfl
  | cons c t => rfl

/-- Claim C10: for all strings, the length of the merge is at least the
maximum and at most the sum of the input lengths: the merge drops at most the
detected overlap and never more than plain concatenation provides. -/
theorem claim_C10_merge_length_bounds :
    ∀ s1 s2 : List Char,
      max s1.length s2.length ≤ (smartMergeStrings s1 s2).length ∧
      (smartMergeStrings s1 s2).length ≤ s1.length + s2.length := by
  intro s1 s2
  unfold smartMergeStrings
  by_cases h1 : s1.isEmpty = true
  · have hs1 : s1 = [] := List.isEmpty_iff.mp h1
    subst hs1; simp
  · rw [if_neg h1]
    by_cases h2 : s2.isEmpty = true
    · have hs2 : s2 = [] := List.isEmpty_iff.mp h2
      subst hs2; simp
    · rw [if_neg h2]
      by_cases h3 : isSubstringOf s2 s1 = true
      · rw [if_pos h3]
        have hle : s2.length ≤ s1.length :=
          ((isSubstringOf_iff s2 s1).mp h3).length_le
        constructor
        · omega
        · omega
      · rw [if_neg h3]
        by_cases h4 : isSubstringOf s1 s2 = true
        · rw [if_pos h4]
          have hle : s1.length ≤ s2.length :=
            ((isSubstringOf_iff s1 s2).mp h4).length_le
          constructor
          · omega
          · omega
        · rw [if_neg h4]
          have hb := overlapLoop_le s1 s2 (min s1.length s2.length)
          have hmin1 : min s1.length s2.length ≤ s1.length := Nat.min_le_left _ _
          have hmin2 : min s1.length s2.length ≤ s2.length := Nat.min_le_right _ _
          show max s1.length s2.length ≤
              (if 0 < overlapLoop s1 s2 (min s1.length s2.length) then
                s1.take (s1.length - overlapLoop s1 s2 (min s1.length s2.length)) ++ s2
              else s1 ++ s2).length ∧
            (if 0 < overlapLoop s1 s2 (min s1.length s2.length) then
                s1.take (s1.length - overlapLoop s1 s2 (min s1.length s2.length)) ++ s2
              else s1 ++ s2).length ≤ s1.length + s2.length
          by_cases hb0 : 0 < overlapLoop s1 s2 (min s1.length s2.length)
          · rw [if_pos hb0]
            simp only [List.length_append, List.length_take]
            constructor
            · omega
            · omega
          · rw [if_neg hb0]
            simp only [List.length_append]
            constructor
            · omega
            · omega

/-- Claim C3: correctness of the merge: a contained string is absorbed; with
no containment, the largest suffix/prefix overlap `L` is dropped from the end
of `first` before appending `second`; with no overlap the strings are
concatenated; and the three spec examples evaluate as stated. -/
theorem claim_C3_merge_functional_correct :
    (∀ s1 s2 : List Char, s2 <:+: s1 → smartMergeStrings s1 s2 = s1) ∧
    (∀ s1 s2 : List Char, s1 <:+: s2 → smartMergeStrings s1 s2 = s2) ∧
    (∀ s1 s2 : List Char, ∀ L : Nat,
      s1 ≠ [] → s2 ≠ [] → ¬ (s2 <:+: s1) → ¬ (s1 <:+: s2) →
      1 ≤ L → L ≤ min s1.length s2.length → OverlapAt s1 s2 L →
      (∀ M, 1 ≤ M → M ≤ min s1.length s2.length → OverlapAt s1 s2 M → M ≤ L) →
      smartMergeStrings s1 s2 = s1.take (s1.length - L) ++ s2) ∧
    (∀ s1 s2 : List Char,
      s1 ≠ [] → s2 ≠ [] → ¬ (s2 <:+: s1) → ¬ (s1 <:+: s2) →
      (∀ M, 1 ≤ M → M ≤ min s1.length s2.length → ¬ OverlapAt s1 s2 M) →
      smartMergeStrings s1 s2 = s1 ++ s2) ∧
    smartMergeStrings ("hello wor".data) ("world".data) = ("hello world").data ∧
    smartMergeStrings ("abc".data) ("b".data) = ("abc").data ∧
    smartMergeStrings ("foo".data) ("bar".data) = ("foobar").data := by
  refine ⟨?_, ?_, ?_, ?_, by decide, by decide, by decide⟩
  · intro s1 s2 h
    unfold smartMergeStrings
    by_cases h1 : s1.isEmpty = true
    · have hs1 : s1 = [] := List.isEmpty_iff.mp h1
      subst hs1
      have hs2 : s2 = [] := List.eq_nil_of_infix_nil h
      simp [hs2]
    · rw [if_neg h1]
      by_cases h2 : s2.isEmpty = true
      · rw [if_pos h2]
      · rw [if_neg h2, if_pos ((isSubstringOf_iff s2 s1).mpr h)]
  · intro s1 s2 h
    unfold smartMergeStrings
    by_cases h1 : s1.isEmpty = true
    · rw [if_pos h1]
    · rw [if_neg h1]
      by_cases h2 : s2.isEmpty = true
      · have hs2 : s2 = [] := List.isEmpty_iff.mp h2
        subst hs2
        have hs1 : s1 = [] := List.eq_nil_of_infix_nil h
        exact absurd (List.isEmpty_iff.mpr hs1) h1
      · rw [if_neg h2]
        by_cases h3 : isSubstringOf s2 s1 = true
        · rw [if_pos h3]
          have h21 : s2 <:+: s1 := (isSubstringOf_iff s2 s1).mp h3
          exact (h.sublist.eq_of_length
            (Nat.le_antisymm h.length_le h21.length_le))
        · rw [if_neg h3, if_pos ((isSubstringOf_iff s1 s2).mpr h)]
  · intro s1 s2 L hn1 hn2 hni1 hni2 hL1 hLmin hov hmax
    unfold smartMergeStrings
    rw [if_neg (isEmpty_eq_true_ne s1 hn1), if_neg (isEmpty_eq_true_ne s2 hn2)]
    rw [if_neg (fun hh => hni1 ((isSubstringOf_iff s2 s1).mp hh))]
    rw [if_neg (fun hh => hni2 ((isSubstringOf_iff s1 s2).mp hh))]
    have hbL : overlapLoop s1 s2 (min s1.length s2.length) = L := by
      have hge : L ≤ overlapLoop s1 s2 (min s1.length s2.length) :=
        le_overlapLoop s1 s2 _ _ hL1 hLmin hov
      have hpos : 0 < overlapLoop s1 s2 (min s1.length s2.length) := by omega
      have hle : overlapLoop s1 s2 (min s1.length s2.length) ≤ L :=
        hmax _ hpos (overlapLoop_le s1 s2 _) (overlapLoop_pos_overlap s1 s2 _ hpos)
      omega
    show (if 0 < overlapLoop s1 s2 (min s1.length s2.length) then
        s1.take (s1.length - overlapLoop s1 s2 (min s1.length s2.length)) ++ s2
      else s1 ++ s2) = s1.take (s1.length - L) ++ s2
    rw [hbL, if_pos (show 0 < L by omega)]
  · intro s1 s2 hn1 hn2 hni1 hni2 hno
    unfold smartMergeStrings
    rw [if_neg (isEmpty_eq_true_ne s1 hn1), if_neg (isEmpty_eq_true_ne s2 hn2)]
    rw [if_neg (fun hh => hni1 ((isSubstringOf_iff s2 s1).mp hh))]
    rw [if_neg (fun hh => hni2 ((isSubstringOf_iff s1 s2).mp hh))]
    have hb0 : overlapLoop s1 s2 (min s1.length s2.length) = 0 :=
      overlapLoop_eq_zero_of_no_overlap s1 s2 _ (fun M hM1 hMk => hno M hM1 hMk)
    show (if 0 < overlapLoop s1 s2 (min s1.length s2.length) then
        s1.take (s1.length - overlapLoop s1 s2 (min s1.length s2.length)) ++ s2
      else s1 ++ s2) = s1 ++ s2
    rw [hb0, if_neg (by omega)]

/-- Witness for C3: the overlap case applied at the spec's own example, with
largest overlap 3 between "hello wor" and "world". -/
theorem claim_C3_witness :
    smartMergeStrings ("hello wor".data) ("world".data) =
      ("hello wor".data).take (("hello wor".data).length - 3) ++ "world".data := by
  have hmax : ∀ M, 1 ≤ M → M ≤ min ("hello wor".data).length ("world".data).length →
      OverlapAt ("hello wor".data) ("world".data) M → M ≤ 3 := by
    intro M hM1 hM2 hov
    have h5 : M ≤ 5 := le_trans hM2 (by decide)
    interval_cases M <;> revert hov <;> decide
  exact claim_C3_merge_functional_correct.2.2.1 ("hello wor".data) ("world".data) 3
    (by decide) (by decide) (by decide) (by decide) (by decide) (by decide) (by decide) hmax

/-! ### Claims about the reconciler -/

lemma newline_data : ("\n".data : List Char) = ['\n'] := by decide

lemma option_or_some_left {o : Option Char} {a c : Char}
    (h : (some a).or o = some c) : a = c := by
  rw [Option.or_some] at h
  exact Option.some.inj h

lemma suffix_ends_newline {p x : List Char} (h : p <:+ x ++ ['\n']) (hp : p ≠ []) :
    ∃ q, p = q ++ ['\n'] := by
  obtain ⟨t, ht⟩ := h
  have hlast : p.getLast? = some '\n' := by
    have h1 := congrArg List.getLast? ht
    rw [List.getLast?_append, List.getLast?_append] at h1
    have hps : p.getLast?.isSome := List.getLast?_isSome.mpr hp
    cases hpl : p.getLast? with
    | none => rw [hpl] at hps; simp at hps
    | some c =>
      rw [hpl] at h1
      rw [Option.or_some] at h1
      rw [show (['\n'] : List Char).getLast? = some '\n' from rfl] at h1
      rw [Option.or_some] at h1
      exact h1
  exact ⟨p.dropLast, (List.dropLast_append_getLast? '\n' hlast).symm⟩

/-- Claim C8 (counterexample): with an empty reference list the reconciler
returns the marker-stripped text untrimmed, so the output of answer
`" hi "` keeps its leading and trailing spaces. -/
theorem claim_C8_counterexample :
    buildMdFromAnswer asciiLN ⟨" hi ".data, []⟩ = some (" hi ".data) ∧
    (" hi ".data).head? = some ' ' ∧ jsWhitespace ' ' = true := by
  exact ⟨by decide, by decide, by decide⟩

/-- Claim C8 (amended): for every answer text and every NON-EMPTY reference
list, a normally returned string has no leading and no trailing JavaScript
whitespace; with an empty reference list the stripped text is returned
without trimming (see the counterexample). -/
theorem claim_C8_trimmed :
    ∀ (isLN : Char → Bool) (a : AnswerAction) (out : List Char),
      a.references ≠ [] → buildMdFromAnswer isLN a = some out →
      (∀ c, out.head? = some c → jsWhitespace c = false) ∧
      (∀ c, out.getLast? = some c → jsWhitespace c = false) := by
  intro isLN a out h1 h
  obtain ⟨pre, block, hfr, hbh, hout⟩ := buildMd_some_shape h1 h
  have hne : jsRtrim block ≠ [] :=
    jsRtrim_ne_nil_of_mem
      (by rw [head?_eq_some_cons hbh]; exact List.mem_cons_self _ _) (by decide)
  constructor
  · intro c hc
    rw [hout, List.head?_append] at hc
    cases hpre : (jsLtrim pre).head? with
    | some c0 =>
      rw [hpre] at hc
      rw [← option_or_some_left hc]
      exact jsLtrim_head hpre
    | none =>
      rw [hpre] at hc
      rw [Option.none_or] at hc
      rw [head?_of_isPre (jsRtrim_isPrefixOf_self block) hne, hbh] at hc
      rw [← Option.some.inj hc]
      decide
  · intro c hc
    rw [hout, List.getLast?_append] at hc
    cases hbl : (jsRtrim block).getLast? with
    | some c0 =>
      rw [hbl] at hc
      rw [← option_or_some_left hc]
      exact jsRtrim_getLast hbl
    | none =>
      exact absurd (List.getLast?_eq_none_iff.mp hbl) hne

/-- Witness for C8: the amended trimming property applied to a concrete
answer with one reference. -/
theorem claim_C8_witness :
    (∀ c, ("hi\n\n⁜[^1]\n\n[^1]: a".data).head? = some c → jsWhitespace c = false) ∧
    (∀ c, ("hi\n\n⁜[^1]\n\n[^1]: a".data).getLast? = some c → jsWhitespace c = false) :=
  claim_C8_trimmed asciiLN ⟨"hi".data, [⟨"a".data, none⟩]⟩ ("hi\n\n⁜[^1]\n\n[^1]: a".data)
    (by decide) (by decide)

/-- Claim C1 (counterexample): for the answer `"[^1] [^5]"` with two
references, no correction triggers and the returned string still contains
the out-of-range marker `[^5]` (5 > 2), refuting the claimed range
invariant. -/
theorem claim_C1_counterexample :
    buildMdFromAnswer asciiLN
        ⟨"[^1] [^5]".data, [⟨"a".data, none⟩, ⟨"b".data, none⟩]⟩ =
      some ("[^1] [^5]\n\n[^1]: a\n\n[^2]: b".data) ∧
    ("5".data ∈ extractFootnotes ("[^1] [^5]\n\n[^1]: a\n\n[^2]: b".data)) ∧
    ¬ (parseIntDigits ("5".data) ≤ 2) := by
  exact ⟨by decide, by decide, by decide⟩

/-- Claim C1 (amended): for every answer text and non-empty reference list
for which the reconciler returns normally, the returned string ends with the
reference block — one formatted citation line per reference, in list order,
joined by blank lines, with the block's trailing whitespace removed by the
final trim.  The range part of the claimed invariant fails: a marker
remaining in the text may fall outside `1..len(references)` (see the
counterexample). -/
theorem claim_C1_reference_block_suffix :
    ∀ (isLN : Char → Bool) (a : AnswerAction) (out : List Char),
      a.references ≠ [] → buildMdFromAnswer isLN a = some out →
      ∃ lines, List.Forall₂
          (fun line (p : Nat × Reference) => formatReference isLN p.1 p.2 = some line)
          lines (List.enumFrom 0 a.references) ∧
        lines.length = a.references.length ∧
        jsRtrim (joinSep ("\n\n".data) lines) <:+ out := by
  intro isLN a out h1 h
  obtain ⟨pre, block, hfr, hbh, hout⟩ := buildMd_some_shape h1 h
  unfold formatReferences at hfr
  cases ha : formatReferencesAux isLN 0 a.references with
  | none =>
    rw [ha] at hfr
    exact absurd hfr (by simp)
  | some lines =>
    rw [ha] at hfr
    simp only [Option.map_some'] at hfr
    have hb := Option.some.inj hfr
    refine ⟨lines, formatReferencesAux_forall2 _ isLN 0 lines ha, ?_, ?_⟩
    · have hlen := (formatReferencesAux_forall2 _ isLN 0 lines ha).length_eq
      rw [hlen, List.enumFrom_length]
    · rw [hb, hout]
      exact List.suffix_append _ _

/-- Witness for C1: the amended block-suffix property applied to a concrete
answer with one reference. -/
theorem claim_C1_witness :
    ∃ lines, List.Forall₂
        (fun line (p : Nat × Reference) => formatReference asciiLN p.1 p.2 = some line)
        lines (List.enumFrom 0 [(⟨"a".data, none⟩ : Reference)]) ∧
      lines.length = ([(⟨"a".data, none⟩ : Reference)] : List Reference).length ∧
      jsRtrim (joinSep ("\n\n".data) lines) <:+ ("hi [^1]\n\n[^1]: a".data) :=
  claim_C1_reference_block_suffix asciiLN ⟨"hi [^1]".data, [⟨"a".data, none⟩]⟩
    ("hi [^1]\n\n[^1]: a".data) (by decide) (by decide)

lemma buildMd_correction_mk (isLN : Char → Bool) (t : List Char) (refs : List Reference)
    (h1 : refs ≠ []) (h2 : extractFootnotes (fixGrouped t) ≠ [])
    (h3 : needsCorrection (extractFootnotes (fixGrouped t)) refs.length = true) :
    buildMdFromAnswer isLN ⟨t, refs⟩ = (formatReferences isLN refs).map (fun r =>
      jsTrim ("\n".data ++ renumberFootnotes 0 (fixGrouped t) ++ "\n\n".data ++
        r ++ "\n".data)) :=
  buildMd_correction isLN ⟨t, refs⟩ h1 h2 h3

lemma buildMd_no_markers_mk (isLN : Char → Bool) (t : List Char) (refs : List Reference)
    (h1 : refs ≠ []) (h2 : extractFootnotes (fixGrouped t) = []) :
    buildMdFromAnswer isLN ⟨t, refs⟩ = (formatReferences isLN refs).map (fun r =>
      jsTrim ("\n".data ++ fixGrouped t ++ "\n\n⁜".data ++ allRefMarkers refs.length ++
        "\n\n".data ++ r ++ "\n".data)) :=
  buildMd_no_markers isLN ⟨t, refs⟩ h1 h2

/-- Claim C2: for the answer `"[^2] [^2] [^2]"` with exactly three
references the correction triggers (all markers identical and their count
equals the reference count) and the markers are rewritten to the sequential
`"[^1] [^2] [^3]"` followed by the reference block; in general, in the
correction branch the result is the renumbered answer text followed by the
block, and renumbering rewrites the `i`-th marker occurrence of the text
(1-based, left to right) to `[^i]` regardless of its original number. -/
theorem claim_C2_sequential_correction :
    (needsCorrection (extractFootnotes (fixGrouped ("[^2] [^2] [^2]".data))) 3 = true) ∧
    (∀ refs : List Reference, refs.length = 3 → ∀ block : List Char,
      formatReferences asciiLN refs = some block →
      buildMdFromAnswer asciiLN ⟨"[^2] [^2] [^2]".data, refs⟩ =
        some ("[^1] [^2] [^3]\n\n".data ++ jsRtrim block)) ∧
    (∀ (isLN : Char → Bool) (t : List Char) (refs : List Reference) (block : List Char),
      refs ≠ [] → extractFootnotes (fixGrouped t) ≠ [] →
      needsCorrection (extractFootnotes (fixGrouped t)) refs.length = true →
      formatReferences isLN refs = some block →
      buildMdFromAnswer isLN ⟨t, refs⟩ =
        some (jsTrim ("\n".data ++ renumberFootnotes 0 (fixGrouped t) ++ "\n\n".data ++
          block ++ "\n".data))) ∧
    (∀ (l : List Char) (k : Nat),
      extractFootnotes (renumberFootnotes k l) =
        (List.range (extractFootnotes l).length).map (fun i => natDigits (k + i + 1))) := by
  have hgen : ∀ (isLN : Char → Bool) (t : List Char) (refs : List Reference)
      (block : List Char),
      refs ≠ [] → extractFootnotes (fixGrouped t) ≠ [] →
      needsCorrection (extractFootnotes (fixGrouped t)) refs.length = true →
      formatReferences isLN refs = some block →
      buildMdFromAnswer isLN ⟨t, refs⟩ =
        some (jsTrim ("\n".data ++ renumberFootnotes 0 (fixGrouped t) ++ "\n\n".data ++
          block ++ "\n".data)) := by
    intro isLN t refs block h1 h2 h3 hfr
    rw [buildMd_correction_mk isLN t refs h1 h2 h3, hfr]
    rfl
  refine ⟨by decide, ?_, hgen, fun l k => extractFootnotes_renumber l.length l rfl k⟩
  intro refs h3 block hfr
  have h1 : refs ≠ [] := by
    intro hc
    rw [hc] at h3
    simp at h3
  have h2 : extractFootnotes (fixGrouped ("[^2] [^2] [^2]".data)) ≠ [] := by decide
  have hnc : needsCorrection (extractFootnotes (fixGrouped ("[^2] [^2] [^2]".data)))
      refs.length = true := by
    rw [h3]
    decide
  rw [hgen asciiLN ("[^2] [^2] [^2]".data) refs block h1 h2 hnc hfr]
  congr 1
  rw [show renumberFootnotes 0 (fixGrouped ("[^2] [^2] [^2]".data)) =
    ("[^1] [^2] [^3]".data : List Char) from by decide]
  have hbh : block.head? = some '[' := formatReferences_head h1 hfr
  have hBh : (block ++ "\n".data).head? = some '[' := by
    rw [List.head?_append, hbh]
    rfl
  have hT : ("\n".data : List Char) ++ "[^1] [^2] [^3]".data ++ "\n\n".data ++
      block ++ "\n".data =
      (("\n".data : List Char) ++ "[^1] [^2] [^3]".data ++ "\n\n".data) ++
        (block ++ "\n".data) := by
    simp [List.append_assoc]
  rw [hT, jsTrim_concat hBh (by decide), jsRtrim_append_ws (by decide)]
  rw [show jsLtrim (("\n".data : List Char) ++ "[^1] [^2] [^3]".data ++ "\n\n".data) =
    ("[^1] [^2] [^3]\n\n".data : List Char) from by decide]

/-- Witness for C2: the concrete correction applied to three concrete
references. -/
theorem claim_C2_witness :
    buildMdFromAnswer asciiLN ⟨"[^2] [^2] [^2]".data,
        [⟨"a".data, none⟩, ⟨"b".data, none⟩, ⟨"c".data, none⟩]⟩ =
      some ("[^1] [^2] [^3]\n\n".data ++
        jsRtrim ("[^1]: a\n\n[^2]: b\n\n[^3]: c".data)) :=
  claim_C2_sequential_correction.2.1
    [⟨"a".data, none⟩, ⟨"b".data, none⟩, ⟨"c".data, none⟩] (by decide)
    ("[^1]: a\n\n[^2]: b\n\n[^3]: c".data) (by decide)

/-- Claim C4 (counterexample): with an empty reference list, stripping is a
single left-to-right pass, so text surrounding a removed marker can itself
form a marker that remains: the answer `"[^1[^2]]"` yields `"[^1]"`, which
still contains the footnote marker `[^1]`. -/
theorem claim_C4_counterexample :
    buildMdFromAnswer asciiLN ⟨"[^1[^2]]".data, []⟩ = some ("[^1]".data) ∧
    extractFootnotes ("[^1]".data) = ["1".data] ∧
    extractFootnotes ("[^1]".data) ≠ [] := by
  exact ⟨by decide, by decide, by decide⟩

/-- Claim C4 (amended): with an empty reference list the reconciler first
rewrites grouped markers into separate single markers, then removes every
single marker found in one left-to-right pass, returns the bare text and
appends no reference block; every scanned marker is removed (the lengths
account exactly for the removed `[^...]` occurrences), but marker-shaped
text formed by a removal may remain in the output (see the
counterexample). -/
theorem claim_C4_empty_refs_strip :
    (∀ (isLN : Char → Bool) (t : List Char),
      buildMdFromAnswer isLN ⟨t, []⟩ = some (stripFootnotes (fixGrouped t))) ∧
    (∀ s : List Char,
      (stripFootnotes s).length +
        ((extractFootnotes s).map (fun ds => ds.length + 3)).sum = s.length) ∧
    fixGrouped ("[^1,^2,^3]".data) = ("[^1], [^2], [^3]".data) := by
  refine ⟨?_, ?_, by decide⟩
  · intro isLN t
    exact buildMd_empty_refs isLN ⟨t, []⟩ rfl
  · intro s
    exact stripFootnotes_length s.length s rfl

/-- Claim C5: for every non-empty reference list and every answer whose
grouped-normalized text has no footnote markers, the output ends with a
line starting at the symbol `⁜` holding exactly `len(references)` markers
`[^1][^2]...[^len]` (no separator), followed by a blank line and the
formatted reference block (its trailing whitespace removed by the final
trim); the `⁜` either starts the output or is preceded by a line break. -/
theorem claim_C5_no_markers_citation_line :
    ∀ (isLN : Char → Bool) (t : List Char) (refs : List Reference) (block : List Char),
      refs ≠ [] → extractFootnotes (fixGrouped t) = [] →
      formatReferences isLN refs = some block →
      ∃ pre, buildMdFromAnswer isLN ⟨t, refs⟩ =
          some (pre ++ '⁜' :: (allRefMarkers refs.length ++ "\n\n".data ++
            jsRtrim block)) ∧
        (pre = [] ∨ ∃ q, pre = q ++ ['\n']) ∧
        extractFootnotes (allRefMarkers refs.length) =
          (List.range refs.length).map (fun i => natDigits (i + 1)) := by
  intro isLN t refs block h1 h2 hfr
  rw [buildMd_no_markers_mk isLN t refs h1 h2, hfr]
  simp only [Option.map_some']
  have hbh : block.head? = some '[' := formatReferences_head h1 hfr
  have hne : jsRtrim (block ++ "\n".data) ≠ [] := by
    rw [jsRtrim_append_ws (by decide)]
    exact jsRtrim_ne_nil_of_mem
      (by rw [head?_eq_some_cons hbh]; exact List.mem_cons_self _ _) (by decide)
  have hT : ("\n".data : List Char) ++ fixGrouped t ++ "\n\n⁜".data ++
      allRefMarkers refs.length ++ "\n\n".data ++ block ++ "\n".data =
      (("\n".data : List Char) ++ fixGrouped t ++ "\n\n".data) ++
        ('⁜' :: (allRefMarkers refs.length ++ "\n\n".data ++ (block ++ "\n".data))) := by
    rw [show ("\n\n⁜".data : List Char) = "\n\n".data ++ ['⁜'] from by decide]
    simp [List.append_assoc]
  refine ⟨jsLtrim (("\n".data : List Char) ++ fixGrouped t ++ "\n\n".data), ?_, ?_, ?_⟩
  · rw [hT, jsTrim_concat (show (('⁜' :: (allRefMarkers refs.length ++ "\n\n".data ++
      (block ++ "\n".data))).head? = some '⁜') from rfl) (by decide)]
    congr 1
    congr 1
    have hB : ('⁜' :: (allRefMarkers refs.length ++ "\n\n".data ++ (block ++ "\n".data))) =
        (('⁜' :: (allRefMarkers refs.length ++ "\n\n".data)) ++ (block ++ "\n".data)) := by
      simp [List.append_assoc]
    rw [hB, jsRtrim_append_keep hne, jsRtrim_append_ws (by decide)]
    simp [List.append_assoc]
  · have hsuf : jsLtrim (("\n".data : List Char) ++ fixGrouped t ++ "\n\n".data) <:+
        (("\n".data : List Char) ++ fixGrouped t ++ ['\n']) ++ ['\n'] := by
      have h3 : (("\n".data : List Char) ++ fixGrouped t ++ "\n\n".data) =
          (("\n".data : List Char) ++ fixGrouped t ++ ['\n']) ++ ['\n'] := by
        rw [show ("\n\n".data : List Char) = ['\n'] ++ ['\n'] from by decide]
        simp [List.append_assoc]
      rw [← h3]
      exact List.dropWhile_suffix _
    by_cases hp : jsLtrim (("\n".data : List Char) ++ fixGrouped t ++ "\n\n".data) = []
    · left; exact hp
    · right; exact suffix_ends_newline hsuf hp
  · exact extractFootnotes_allRefMarkers refs.length

/-- Witness for C5: the synthetic citation line for a concrete marker-free
answer with one reference. -/
theorem claim_C5_witness :
    ∃ pre, buildMdFromAnswer asciiLN ⟨"no markers".data,
        [(⟨"q".data, none⟩ : Reference)]⟩ =
        some (pre ++ '⁜' :: (allRefMarkers 1 ++ "\n\n".data ++
          jsRtrim ("[^1]: q".data))) ∧
      (pre = [] ∨ ∃ q, pre = q ++ ['\n']) ∧
      extractFootnotes (allRefMarkers 1) =
        (List.range 1).map (fun i => natDigits (i + 1)) :=
  claim_C5_no_markers_citation_line asciiLN ("no markers".data)
    [⟨"q".data, none⟩] ("[^1]: q".data) (by decide) (by decide) (by decide)

/-- Claim C6 (counterexample): the quote `"Hello, world!!"` renders as
`"Hello world "` with a trailing space (each `!` became a space and the run
collapsed to one), not as `"Hello world"`; and the hostname transformation
removes the first occurrence of `"www."`, not only a leading one: host
`a.www.b.com` renders as `a.b.com`. -/
theorem claim_C6_counterexample :
    formatReference asciiLN 0 ⟨"Hello, world!!".data, none⟩ =
      some ("[^1]: Hello world ".data) ∧
    ("[^1]: Hello world ".data : List Char) ≠ ("[^1]: Hello world".data) ∧
    formatReference asciiLN 0 ⟨[], some ("http://a.www.b.com".data)⟩ =
      some ("[^1]:  [a.b.com](http://a.www.b.com)".data) ∧
    ("a.b.com".data : List Char) ≠ ("a.www.b.com".data) := by
  exact ⟨by decide, by decide, by decide, by decide⟩

/-- Claim C6 (amended): the citation line for reference `i` is
`[^{i+1}]: {cleanedQuote}` where every character of the cleaned quote is a
letter/number (per the class oracle) or a single space and no two adjacent
whitespace characters remain; `"Hello, world!!"` cleans to `"Hello world "`
(with a trailing space, removed only when the line ends the whole output).
When the URL is present and `http`-prefixed, the line ends with
` [{hostname with its FIRST occurrence of "www." removed}]({url})`. -/
theorem claim_C6_reference_line :
    (∀ (isLN : Char → Bool) (i : Nat) (q : List Char),
      formatReference isLN i ⟨q, none⟩ =
        some ("[^".data ++ natDigits (i + 1) ++ "]: ".data ++ cleanQuote isLN q)) ∧
    (∀ (isLN : Char → Bool) (i : Nat) (q url host : List Char),
      listStartsWith url ("http".data) = true → parseURLHostname url = some host →
      formatReference isLN i ⟨q, some url⟩ =
        some (("[^".data ++ natDigits (i + 1) ++ "]: ".data ++ cleanQuote isLN q) ++
          " [".data ++ replaceFirst host ("www.".data) [] ++
          "](".data ++ url ++ ")".data)) ∧
    (∀ (isLN : Char → Bool) (q : List Char),
      (∀ c ∈ cleanQuote isLN q, c = ' ' ∨ (isLN c = true ∧ jsWhitespace c = false)) ∧
      List.Chain' (fun x y => jsWhitespace x = false ∨ jsWhitespace y = false)
        (cleanQuote isLN q)) ∧
    cleanQuote asciiLN ("Hello, world!!".data) = ("Hello world ".data) ∧
    replaceFirst ("a.www.b.com".data) ("www.".data) [] = ("a.b.com".data) := by
  refine ⟨?_, ?_, ?_, by decide, by decide⟩
  · intro isLN i q
    exact formatReference_url_none isLN i q
  · intro isLN i q url host hs hp
    rw [formatReference_url_some, if_pos hs, hp]
  · intro isLN q
    exact ⟨cleanQuote_chars isLN q, cleanQuote_no_adjacent_ws isLN q⟩

/-- Witness for C6: the citation-line shape applied to a concrete reference
with an `http`-prefixed URL whose hostname starts with `www.`. -/
theorem claim_C6_witness :
    formatReference asciiLN 0 ⟨"Hi".data, some ("https://www.example.com/x".data)⟩ =
      some (("[^".data ++ natDigits 1 ++ "]: ".data ++ cleanQuote asciiLN ("Hi".data)) ++
        " [".data ++ replaceFirst ("www.example.com".data) ("www.".data) [] ++
        "](".data ++ "https://www.example.com/x".data ++ ")".data) :=
  claim_C6_reference_line.2.1 asciiLN 0 ("Hi".data) ("https://www.example.com/x".data)
    ("www.example.com".data) (by decide) (by decide)

/-- Claim C7: a present, `http`-prefixed but unparseable URL makes the whole
reconciliation fail from the URL-parsing step (modelled by `none`, the
uncaught exception of the `URL` constructor); a reference whose URL is
absent or not `http`-prefixed triggers no URL parsing and no error — its
citation line is produced without a link — and a call whose references all
are of that kind returns normally. -/
theorem claim_C7_url_error_propagation :
    (buildMdFromAnswer asciiLN ⟨"text".data, [⟨"q".data, some ("http://".data)⟩]⟩ =
      none) ∧
    (∀ (isLN : Char → Bool) (i : Nat) (q : List Char),
      formatReference isLN i ⟨q, none⟩ =
        some ("[^".data ++ natDigits (i + 1) ++ "]: ".data ++ cleanQuote isLN q)) ∧
    (∀ (isLN : Char → Bool) (i : Nat) (q url : List Char),
      listStartsWith url ("http".data) = false →
      formatReference isLN i ⟨q, some url⟩ =
        some ("[^".data ++ natDigits (i + 1) ++ "]: ".data ++ cleanQuote isLN q)) ∧
    (∀ (isLN : Char → Bool) (a : AnswerAction),
      (∀ r ∈ a.references, r.url = none ∨
        ∃ u, r.url = some u ∧ listStartsWith u ("http".data) = false) →
      ∃ out, buildMdFromAnswer isLN a = some out) := by
  refine ⟨by decide, ?_, ?_, ?_⟩
  · intro isLN i q
    exact formatReference_url_none isLN i q
  · intro isLN i q url hs
    rw [formatReference_url_some, if_neg (by simp [hs])]
  · intro isLN a hsafe
    exact buildMd_total isLN a hsafe

/-- Witness for C7: a reference with a non-`http` URL produces a normal
result. -/
theorem claim_C7_witness :
    ∃ out, buildMdFromAnswer asciiLN
      ⟨"t [^1]".data, [⟨"q".data, some ("ftp://x".data)⟩]⟩ = some out :=
  claim_C7_url_error_propagation.2.2.2 asciiLN
    ⟨"t [^1]".data, [⟨"q".data, some ("ftp://x".data)⟩]⟩
    (by
      intro r hr
      rw [List.mem_singleton] at hr
      subst hr
      right
      exact ⟨"ftp://x".data, rfl, by decide⟩)

end TextTools
